import Mathlib

/-!
Verification development for the fourtris Tetris engine.

The Rust sources are embedded shallowly:
* `coord.rs`   → `Coord` with componentwise `+`/`-` over `Int`
  (Rust `i32`; the engine's coordinates stay far from the 32-bit range).
* `pieces.rs`  → `Orientation`, `PieceType`, `Piece`, the spawn tables and the
  rotation/translation transforms.
* `board.rs`   → `Board` as a row-major grid function, the bounds/occupancy
  queries, `add_piece` and `clear_lines`.  Rust out-of-range indexing panics;
  fallible operations are embedded with `Option` (`none` = panic).
* `game.rs`    → `Game`, `Input`, `run_loop` with its phases.  The `f32`
  displacement accumulator is embedded exactly in fixed-point micro-cells
  (an `Int` counting multiples of 10⁻⁶, which represents every `GRAVITY`
  literal exactly); the `as u32` cast is floor-then-clamp, matching Rust's
  saturating behaviour for the non-negative values that arise here.
* `rng.rs`     → an `Rng` is an infinite stream `Nat → Nat` consumed from the
  front; functions that draw return the advanced stream.
-/

namespace Fourtris

/-- `coord.rs`: a 2D integer vector. -/
structure Coord where
  x : Int
  y : Int
deriving DecidableEq, Repr

instance : Add Coord :=
  ⟨fun a b => ⟨a.x + b.x, a.y + b.y⟩⟩

instance : Sub Coord :=
  ⟨fun a b => ⟨a.x - b.x, a.y - b.y⟩⟩

/-- `pieces.rs`: the four orientations of the I piece. -/
inductive Orientation where
  | HorizontalDown
  | VerticalLeft
  | HorizontalUp
  | VerticalRight
deriving DecidableEq, Repr

/-- `pieces.rs`: the seven piece kinds; only I carries an orientation. -/
inductive PieceType where
  | IType (o : Orientation)
  | OType
  | JType
  | LType
  | SType
  | ZType
  | TType
deriving DecidableEq, Repr

/-- `pieces.rs`: a piece is a kind together with the four tetrimino
coordinates (`[Coord; 4]` embedded as `Fin 4 → Coord`). -/
structure Piece where
  piece_type : PieceType
  position : Fin 4 → Coord

instance : DecidableEq Piece := fun a b =>
  decidable_of_iff (a.piece_type = b.piece_type ∧ a.position = b.position)
    (by cases a; cases b; simp)

-- Spawn coordinate tables (`I_COORDS` … `T_COORDS`).

def I_COORDS : Fin 4 → Coord := ![⟨6, 20⟩, ⟨5, 20⟩, ⟨4, 20⟩, ⟨3, 20⟩]

def O_COORDS : Fin 4 → Coord := ![⟨4, 20⟩, ⟨4, 21⟩, ⟨5, 20⟩, ⟨5, 21⟩]

def J_COORDS : Fin 4 → Coord := ![⟨4, 20⟩, ⟨3, 20⟩, ⟨3, 21⟩, ⟨5, 20⟩]

def L_COORDS : Fin 4 → Coord := ![⟨4, 20⟩, ⟨3, 20⟩, ⟨5, 20⟩, ⟨5, 21⟩]

def S_COORDS : Fin 4 → Coord := ![⟨4, 20⟩, ⟨3, 20⟩, ⟨4, 21⟩, ⟨5, 21⟩]

def Z_COORDS : Fin 4 → Coord := ![⟨4, 20⟩, ⟨3, 21⟩, ⟨4, 21⟩, ⟨5, 20⟩]

def T_COORDS : Fin 4 → Coord := ![⟨4, 20⟩, ⟨3, 20⟩, ⟨4, 21⟩, ⟨5, 20⟩]

/-- `pieces.rs`: `I_CW_OFFSETS`, the per-orientation correction vector for
clockwise rotation of the I piece (the array is indexed by the orientation's
discriminant). -/
def I_CW_OFFSETS : Orientation → Coord
  | .HorizontalDown => ⟨-2, -1⟩
  | .VerticalLeft   => ⟨-1, 2⟩
  | .HorizontalUp   => ⟨2, 1⟩
  | .VerticalRight  => ⟨1, -2⟩

/-- `pieces.rs`: `add_offset`, translating all four coordinates. -/
def add_offset (coords : Fin 4 → Coord) (offset : Coord) : Fin 4 → Coord :=
  fun i => coords i + offset

/-- `pieces.rs`: `make_relative`, coordinates relative to the center point
(the first point of the array). -/
def make_relative (coords : Fin 4 → Coord) : Fin 4 → Coord :=
  add_offset coords ⟨-(coords 0).x, -(coords 0).y⟩

namespace Piece

/-- `pieces.rs`: `Piece::move_left`. -/
def move_left (p : Piece) : Piece :=
  { p with position := add_offset p.position ⟨-1, 0⟩ }

/-- `pieces.rs`: `Piece::move_right`. -/
def move_right (p : Piece) : Piece :=
  { p with position := add_offset p.position ⟨1, 0⟩ }

/-- `pieces.rs`: `Piece::apply_gravity` — translate by `(0, -displacement)`. -/
def apply_gravity (p : Piece) (displacement : Nat) : Piece :=
  { p with position := add_offset p.position ⟨0, -1 * (displacement : Int)⟩ }

/-- `pieces.rs`: the clockwise successor of an I orientation, as written in
`cw_rot`'s match. -/
def cwNext : Orientation → Orientation
  | .HorizontalDown => .VerticalLeft
  | .VerticalLeft   => .HorizontalUp
  | .HorizontalUp   => .VerticalRight
  | .VerticalRight  => .HorizontalDown

/-- `pieces.rs`: the counterclockwise successor of an I orientation, as
written in `ccw_rot`'s match. -/
def ccwNext : Orientation → Orientation
  | .HorizontalDown => .VerticalRight
  | .VerticalLeft   => .HorizontalDown
  | .HorizontalUp   => .VerticalLeft
  | .VerticalRight  => .HorizontalUp

/-- `pieces.rs`: `Piece::cw_rot` — relative to `position 0`, rotate each
offset by `(dx,dy) ↦ (dy,-dx)`, translate back, with the I correction offset
and orientation step; O is unchanged. -/
def cw_rot (p : Piece) : Piece :=
  let center_coord := p.position 0
  let relative_coords := make_relative p.position
  let rel_rotated_coords : Fin 4 → Coord :=
    fun i => ⟨(relative_coords i).y, -(relative_coords i).x⟩
  match p.piece_type with
  | .IType orientation =>
      let offset := I_CW_OFFSETS orientation
      { piece_type := .IType (cwNext orientation)
        position := add_offset rel_rotated_coords (offset + center_coord) }
  | .OType => p
  | _ => { p with position := add_offset rel_rotated_coords center_coord }

/-- `pieces.rs`: `Piece::ccw_rot` — relative offsets rotated by
`(dx,dy) ↦ (-dy,dx)`; the I correction offset is the 90° clockwise rotation
of the clockwise offset for the current orientation. -/
def ccw_rot (p : Piece) : Piece :=
  let center_coord := p.position 0
  let relative_coords := make_relative p.position
  let rel_rotated_coords : Fin 4 → Coord :=
    fun i => ⟨-(relative_coords i).y, (relative_coords i).x⟩
  match p.piece_type with
  | .IType orientation =>
      let cw_offset := I_CW_OFFSETS orientation
      let offset : Coord := ⟨cw_offset.y, -cw_offset.x⟩
      { piece_type := .IType (ccwNext orientation)
        position := add_offset rel_rotated_coords (center_coord + offset) }
  | .OType => p
  | _ => { p with position := add_offset rel_rotated_coords center_coord }

end Piece

/-- `pieces.rs`: `PIECE_TYPES`, the seven pieces at their spawn poses. -/
def PIECE_TYPES : Fin 7 → Piece :=
  ![⟨.IType .HorizontalDown, I_COORDS⟩,
    ⟨.OType, O_COORDS⟩,
    ⟨.JType, J_COORDS⟩,
    ⟨.LType, L_COORDS⟩,
    ⟨.SType, S_COORDS⟩,
    ⟨.ZType, Z_COORDS⟩,
    ⟨.TType, T_COORDS⟩]

/-- `game_renderer.rs`: cell states; `EmptySpace` is the default. -/
inductive TetriminoType where
  | EmptySpace
  | I
  | O
  | J
  | L
  | S
  | Z
  | T
deriving DecidableEq, Repr

def BOARD_WIDTH : Nat := 10

def BOARD_HEIGHT : Nat := 22

/-- `board.rs`: the 10×22 occupancy grid, row-major (`content[y][x]`),
embedded as a total function; only indices `y < 22`, `x < 10` are ever
meaningful. -/
def Board : Type := Nat → Nat → TetriminoType

/-- `board.rs`: `Board::new`, the all-empty board. -/
def Board.new : Board := fun _ _ => TetriminoType.EmptySpace

/-- Conjunction of a boolean check over the four cells of a `[Coord; 4]`,
mirroring `coords.iter().all(..)`. -/
def all4 (coords : Fin 4 → Coord) (p : Coord → Bool) : Bool :=
  p (coords 0) && p (coords 1) && p (coords 2) && p (coords 3)

/-- Disjunction of a boolean check over the four cells of a `[Coord; 4]`,
mirroring `coords.iter().any(..)`. -/
def any4 (coords : Fin 4 → Coord) (p : Coord → Bool) : Bool :=
  p (coords 0) || p (coords 1) || p (coords 2) || p (coords 3)

/-- `board.rs`: `Board::is_tetrimino_within_bounds` — every cell has
`0 ≤ x < 10` and `-1 ≤ y < 22`. -/
def Board.is_tetrimino_within_bounds (coords : Fin 4 → Coord) : Bool :=
  all4 coords fun c =>
    decide (0 ≤ c.x) && decide (c.x < (BOARD_WIDTH : Int)) &&
    decide (-1 ≤ c.y) && decide (c.y < (BOARD_HEIGHT : Int))

/-- `board.rs`: the body of `Board::is_occupied` for one cell, including the
grid accesses. A `none` result is an out-of-range access (a Rust panic);
cells with `y < 0` are never indexed. -/
def Board.cell_occupied (b : Board) (c : Coord) : Option Bool :=
  if c.y < 0 then
    some false
  else if 0 ≤ c.x ∧ c.x < (BOARD_WIDTH : Int) ∧ c.y < (BOARD_HEIGHT : Int) then
    some (decide (b c.y.toNat c.x.toNat ≠ TetriminoType.EmptySpace))
  else
    none

/-- `coords.iter().any(..)` over fallible per-cell checks: short-circuits at
the first `true`, propagates the first panic encountered. -/
def Board.any_occupied (b : Board) : List Coord → Option Bool
  | [] => some false
  | c :: rest =>
      match Board.cell_occupied b c with
      | none => none
      | some true => some true
      | some false => Board.any_occupied b rest

/-- `board.rs`: `Board::is_occupied`. Only to be called after
`is_tetrimino_within_bounds` succeeded; `none` models the panic that an
unchecked call can produce. -/
def Board.is_occupied (b : Board) (coords : Fin 4 → Coord) : Option Bool :=
  Board.any_occupied b [coords 0, coords 1, coords 2, coords 3]

/-- `Board::is_occupied` restricted to its documented precondition: the
checks at every call site in `game.rs` guarantee the coordinates are within
bounds, under which this total version agrees with `is_occupied` (see
`is_occupied_eq_some_of_bounds`). -/
def Board.is_occupied_ck (b : Board) (coords : Fin 4 → Coord) : Bool :=
  any4 coords fun c =>
    if c.y < 0 then false
    else decide (b c.y.toNat c.x.toNat ≠ TetriminoType.EmptySpace)

/-- `board.rs`: `Board::is_at_the_bottom` — some cell has `y = -1` and no
cell has `y < -1`. -/
def Board.is_at_the_bottom (coords : Fin 4 → Coord) : Bool :=
  (any4 coords fun c => decide (c.y = -1)) && !(any4 coords fun c => decide (c.y < -1))

/-- Rust `as usize` on an `i32`: a wrapping cast to 64 bits. -/
def usizeCast (n : Int) : Nat := (n % (2 ^ 64 : Int)).toNat

/-- Writing one settled cell into the grid (`content[y][x] = tet_type` in
`add_piece`). Rust panics when the cell is out of range; `add_piece` is only
called on settled pieces, whose cells are in range, so the out-of-range case
is modelled as a skipped write. -/
def Board.stamp (b : Board) (c : Coord) (t : TetriminoType) : Board :=
  if 0 ≤ c.y ∧ c.y < (BOARD_HEIGHT : Int) ∧ 0 ≤ c.x ∧ c.x < (BOARD_WIDTH : Int) then
    fun y x => if y = c.y.toNat ∧ x = c.x.toNat then t else b y x
  else b

/-- `board.rs`: the piece-kind to cell-colour match at the top of
`add_piece`. -/
def tetTypeOf : PieceType → TetriminoType
  | .IType _ => .I
  | .OType => .O
  | .JType => .J
  | .LType => .L
  | .SType => .S
  | .ZType => .Z
  | .TType => .T

/-- `board.rs`: `Board::add_piece` — stamp the four cells, then return the
half-open row range `[y_min, y_max+1)` spanned by them (the min/max fold
starts from the sentinels `400` and `-400`). -/
def Board.add_piece (b : Board) (piece : Piece) : Board × (Nat × Nat) :=
  let t := tetTypeOf piece.piece_type
  let b1 := ((((b.stamp (piece.position 0) t).stamp (piece.position 1) t).stamp
      (piece.position 2) t).stamp (piece.position 3) t)
  let y_min : Int := min (min (min (min 400 (piece.position 0).y) (piece.position 1).y)
      (piece.position 2).y) (piece.position 3).y
  let y_max : Int := max (max (max (max (-400) (piece.position 0).y) (piece.position 1).y)
      (piece.position 2).y) (piece.position 3).y
  (b1, (usizeCast y_min, usizeCast (y_max + 1)))

/-- `board.rs`: one row is a completed line iff all ten of its cells are
non-empty. -/
def Board.isFullRow (b : Board) (y : Nat) : Bool :=
  (List.range BOARD_WIDTH).all fun x => decide (b y x ≠ TetriminoType.EmptySpace)

/-- The first pass of `clear_lines`: the ascending list of completed rows in
the half-open range `[start, stop)`. -/
def Board.fullRows (b : Board) (start stop : Nat) : List Nat :=
  (List.range' start (stop - start) 1).filter fun y => Board.isFullRow b y

/-- The inner compaction of `clear_lines` for one already-adjusted row index
`r`: rows `r..=20` take the row above them, row `21` becomes empty. -/
def Board.removeRow (b : Board) (r : Nat) : Board :=
  fun y x =>
    if y = BOARD_HEIGHT - 1 then TetriminoType.EmptySpace
    else if r ≤ y ∧ y ≤ BOARD_HEIGHT - 2 then b (y + 1) x
    else b y x

/-- The second pass of `clear_lines`: remove the marked rows in ascending
order, adjusting each index by the number of rows already removed
(`real_y = y - cleared_so_far`). -/
def Board.removeRowsAdj (b : Board) : List Nat → Nat → Board
  | [], _ => b
  | y :: rest, k => Board.removeRowsAdj (b.removeRow (y - k)) rest (k + 1)

/-- `board.rs`: `Board::clear_lines` over the row range `[start, stop)`.
`none` models the panics: a row index reaching 22 (grid indexing), or a
fifth completed row overflowing the 4-entry `completed_lines` array. -/
def Board.clear_lines (b : Board) (start stop : Nat) : Option (Board × Nat) :=
  if BOARD_HEIGHT < stop ∧ start < stop then none
  else
    let full := b.fullRows start stop
    if full.length ≤ 4 then some (Board.removeRowsAdj b full 0, full.length)
    else none

/-- `game.rs`: the per-tick render diff record. -/
structure RenderInfo where
  previous_piece_pos : Option (Fin 4 → Coord)
  newly_settled_pieces : Option (Fin 4 → Coord)
  lines_cleared : Bool
  new_score : Option Nat
  new_level : Option Nat

instance : Inhabited RenderInfo :=
  ⟨⟨none, none, false, none, none⟩⟩

/-- `game.rs`: the per-tick input flags. -/
structure Input where
  left : Bool
  right : Bool
  down : Bool
  cw_rotate : Bool
  ccw_rotate : Bool

/-- `game.rs`: `GameState`. -/
inductive GameState where
  | Playing
  | GameOver
deriving DecidableEq, Repr

def COOLDOWN : Nat := 10

/-- One cell of displacement, in micro-cells. -/
def MICRO : Int := 1000000

/-- `game.rs`: `GRAVITY`, cells per tick for levels 1..15, in micro-cells.
The Rust values are the `f32` literals 0.01667, 0.021017, 0.026977,
0.035356, 0.04693, 0.06361, 0.0879, 0.1236, 0.1775, 0.2598, 0.388, 0.59,
0.92, 1.46, 2.36; each is represented exactly here as an integer count of
10⁻⁶ cells (floating-point rounding is not modelled — no claim depends on
the exact accumulator values). -/
def GRAVITY : List Int :=
  [16670, 21017, 26977, 35356, 46930, 63610, 87900, 123600,
   177500, 259800, 388000, 590000, 920000, 1460000, 2360000]

/-- `game.rs`: the `Game` state. `displacement` is the `f32` gravity
accumulator, embedded exactly in micro-cells. -/
structure Game where
  pieces : Fin 7 → Piece
  current_piece : Piece
  board : Board
  piece_index : Nat
  state : GameState
  displacement : Int
  level : Nat
  score : Nat
  next_level_score : Nat
  rotation_cooldown_counter : Nat
  translation_cooldown_counter : Nat
  render_info : RenderInfo

/-- `game.rs`: `Game::handle_horizontal_input`. -/
def handle_horizontal_input (input : Input) (piece : Piece)
    (accept_new_position : Piece → Bool) : Option Piece :=
  let translated_piece :=
    if input.left && !input.right then some piece.move_left
    else if input.right && !input.left then some piece.move_right
    else none
  translated_piece.filter accept_new_position

/-- `game.rs`: `Game::handle_rotation_input`. -/
def handle_rotation_input (input : Input) (piece : Piece)
    (accept_new_position : Piece → Bool) : Option Piece :=
  let rotated_piece :=
    if input.cw_rotate && !input.ccw_rotate then some piece.cw_rot
    else if input.ccw_rotate && !input.cw_rotate then some piece.ccw_rot
    else none
  rotated_piece.filter accept_new_position

/-- `game.rs`: `Game::handle_vertical_movement` — walk the piece down one
row at a time for at most `displacement` rows.  Each step the collision /
bottom checks run only when the lowered position is within bounds (the
`is_occupied` call there is guarded, so the checked total `is_occupied_ck`
agrees with the source); on an obstruction the piece reverts to its previous
position and the walk stops reporting settled. -/
def handle_vertical_movement (piece : Piece) (board : Board) :
    Nat → Piece × Bool
  | 0 => (piece, false)
  | d + 1 =>
    let relocated_piece := piece.apply_gravity 1
    if Board.is_tetrimino_within_bounds relocated_piece.position then
      if board.is_occupied_ck relocated_piece.position ||
          Board.is_at_the_bottom relocated_piece.position then
        (piece, true)
      else handle_vertical_movement relocated_piece board d
    else handle_vertical_movement relocated_piece board d

/-- The obstruction test of the vertical walk at depth `k`: the piece
lowered by `k` rows collides with a settled cell or is at the bottom. -/
def blockedAt (board : Board) (piece : Piece) (k : Nat) : Bool :=
  board.is_occupied_ck (piece.apply_gravity k).position ||
  Board.is_at_the_bottom (piece.apply_gravity k).position

/-- `game.rs`: one array swap of the Knuth shuffle
(`temp = tets[i]; tets[i] = tets[index]; tets[index] = temp`). -/
def swapAt (tets : Fin 7 → Piece) (a b : Fin 7) : Fin 7 → Piece :=
  fun k => if k = a then tets b else if k = b then tets a else tets k

/-- `game.rs`: the Knuth-shuffle loop body over the remaining indices.
`none` models the panic of `tets[index]` when a draw is out of range
(`index != i` is tested first, so an in-place draw never indexes). -/
def shuffleAux (tets : Fin 7 → Piece) (r : Nat → Nat) :
    List (Fin 7) → Option ((Fin 7 → Piece) × (Nat → Nat))
  | [] => some (tets, r)
  | i :: rest =>
    let index := r 0
    if index ≠ (i : Nat) then
      if h : index < 7 then
        shuffleAux (swapAt tets i ⟨index, h⟩) (fun n => r (n + 1)) rest
      else none
    else shuffleAux tets (fun n => r (n + 1)) rest

/-- `game.rs`: the Knuth shuffle over indices 0..6 (`Game::new` and the
reshuffle in `run_loop`). -/
def knuthShuffle (tets : Fin 7 → Piece) (r : Nat → Nat) :
    Option ((Fin 7 → Piece) × (Nat → Nat)) :=
  shuffleAux tets r (List.finRange 7)

/-- `game.rs`: `Game::new` — shuffle the spawn bag and start at its first
piece on an empty board. -/
def Game.new (r : Nat → Nat) : Option (Game × (Nat → Nat)) :=
  (knuthShuffle PIECE_TYPES r).map fun tr =>
    ({ pieces := tr.1
       current_piece := tr.1 0
       board := Board.new
       piece_index := 0
       state := .Playing
       displacement := 0
       level := 1
       score := 0
       next_level_score := 5
       rotation_cooldown_counter := 0
       translation_cooldown_counter := 0
       render_info := default }, tr.2)

/-- `game.rs`: the `valid_piece_location` closure of `run_loop`: within
bounds and not colliding.  `&&` short-circuits, so the occupancy check runs
only within bounds, where `is_occupied_ck` agrees with `is_occupied`. -/
def Game.valid_piece_location (g : Game) (p : Piece) : Bool :=
  Board.is_tetrimino_within_bounds p.position && !(g.board.is_occupied_ck p.position)

/-- `game.rs`: the horizontal-movement block of `run_loop`. -/
def Game.horizontalPhase (g : Game) (input : Input) : Game :=
  if g.translation_cooldown_counter > 0 then
    { g with translation_cooldown_counter := g.translation_cooldown_counter - 1 }
  else
    match handle_horizontal_input input g.current_piece g.valid_piece_location with
    | some candidate =>
        { g with current_piece := candidate, translation_cooldown_counter := COOLDOWN }
    | none => g

/-- `game.rs`: the piece-rotation block of `run_loop`. -/
def Game.rotationPhase (g : Game) (input : Input) : Game :=
  if g.rotation_cooldown_counter > 0 then
    { g with rotation_cooldown_counter := g.rotation_cooldown_counter - 1 }
  else
    match handle_rotation_input input g.current_piece g.valid_piece_location with
    | some candidate =>
        { g with current_piece := candidate, rotation_cooldown_counter := COOLDOWN }
    | none => g

/-- `game.rs`: the scoring table of `run_loop` (lines cleared ↦ score
increment). -/
def scoreFor (lines_cleared : Nat) : Nat :=
  if lines_cleared = 1 then 1
  else if lines_cleared = 2 then 3
  else if lines_cleared = 3 then 5
  else if lines_cleared = 4 then 8
  else 0

/-- `game.rs`: the settle block of `run_loop` — stamp the piece, clear
lines, update score/level, fill the render diff, and advance the bag cursor
(reshuffling when the bag is exhausted).  Indexing `pieces[piece_index]`
would panic in Rust if the cursor were out of range; that branch is
unreachable (`piece_index < 7` is an invariant) and is modelled by a dummy
read of entry 0. -/
def Game.settle (g : Game) (updated_piece : Piece) (r : Nat → Nat) :
    Option (Game × (Nat → Nat)) :=
  let res := g.board.add_piece updated_piece
  match Board.clear_lines res.1 res.2.1 res.2.2 with
  | none => none
  | some bc =>
    let lines_cleared := bc.2
    let score' := g.score + scoreFor lines_cleared
    let off_to_a_new_level : Bool :=
      decide (g.next_level_score < score') && decide (g.level < 15)
    let level' := if off_to_a_new_level then g.level + 1 else g.level
    let next' :=
      if off_to_a_new_level then g.next_level_score + 5 * (level' + 1)
      else g.next_level_score
    let ri : RenderInfo :=
      { g.render_info with
        lines_cleared := decide (0 < lines_cleared)
        new_score := if 0 < lines_cleared then some score' else none
        new_level := if off_to_a_new_level then some level' else none
        newly_settled_pieces := some updated_piece.position }
    let idx1 := g.piece_index + 1
    if idx1 = 7 then
      match knuthShuffle g.pieces r with
      | none => none
      | some pr =>
        some ({ g with
                  board := bc.1
                  score := score'
                  level := level'
                  next_level_score := next'
                  render_info := ri
                  pieces := pr.1
                  piece_index := 0
                  current_piece := pr.1 0 }, pr.2)
    else
      some ({ g with
                board := bc.1
                score := score'
                level := level'
                next_level_score := next'
                render_info := ri
                piece_index := idx1
                current_piece := if h : idx1 < 7 then g.pieces ⟨idx1, h⟩
                                 else g.pieces 0 }, r)

/-- `game.rs`: the vertical-movement block of `run_loop` — accumulate
gravity, pick the integer displacement (at least one row while `down` is
held), walk the piece down, and either settle it or keep the new
position.  Out-of-range `GRAVITY[level - 1]` (a Rust panic, unreachable
since `1 ≤ level ≤ 15`) is read as 0. -/
def Game.verticalPhase (g : Game) (input : Input) (r : Nat → Nat) :
    Option (Game × (Nat → Nat)) :=
  let disp0 : Int := g.displacement + GRAVITY.getD (g.level - 1) 0
  let g3 := { g with displacement := disp0 }
  let dInt : Nat := (disp0 / MICRO).toNat
  if dInt > 0 || input.down then
    let displacement := if input.down then max 1 (dInt + 1) else dInt
    let g4 := { g3 with
      displacement := if input.down then 0 else disp0 - (displacement : Int) * MICRO }
    let pr := handle_vertical_movement g4.current_piece g4.board displacement
    if pr.2 then g4.settle pr.1 r
    else some ({ g4 with current_piece := pr.1 }, r)
  else some (g3, r)

/-- Modelled from the spec: `Board::is_board_full` is called by `run_loop`
but its definition is missing from the provided sources.  The spec says it
is "true iff row `(22 − 3)` = row 19 contains any non-Empty cell". -/
def is_board_full (b : Board) : Bool :=
  (List.range BOARD_WIDTH).any fun x =>
    decide (b (BOARD_HEIGHT - 3) x ≠ TetriminoType.EmptySpace)

/-- `game.rs`: the end of `run_loop` — record whether the piece moved this
tick, then derive the returned state from `is_board_full`. -/
def Game.finishPhase (g : Game) (previous_piece : Piece) : Game × GameState :=
  let ri := { g.render_info with
    previous_piece_pos :=
      if g.current_piece.position = previous_piece.position then none
      else some previous_piece.position }
  let g6 := { g with render_info := ri }
  if is_board_full g6.board then ({ g6 with state := .GameOver }, .GameOver)
  else ({ g6 with state := .Playing }, .Playing)

/-- `game.rs`: `Game::run_loop`.  A `GameOver` game returns immediately and
unchanged.  The returned stream is the rng advanced past any reshuffle
draws; `none` models a panic inside the tick. -/
def Game.run_loop (g : Game) (input : Input) (r : Nat → Nat) :
    Option (Game × GameState × (Nat → Nat)) :=
  match g.state with
  | .GameOver => some (g, .GameOver, r)
  | .Playing =>
    let g0 := { g with render_info := default }
    let previous_piece := g0.current_piece
    let g1 := g0.horizontalPhase input
    let g2 := g1.rotationPhase input
    (g2.verticalPhase input r).map fun gr =>
      let fs := Game.finishPhase gr.1 previous_piece
      (fs.1, fs.2, gr.2)

/-- A sequence of ticks: run `run_loop` once per input, threading the game
and the rng stream. -/
def Game.run_many (g : Game) (r : Nat → Nat) : List Input → Option (Game × (Nat → Nat))
  | [] => some (g, r)
  | input :: rest =>
    match g.run_loop input r with
    | none => none
    | some grr => Game.run_many grr.1 grr.2.2 rest

/-- The number of completed rows produced by settling the four given cells
onto a board: stamp them (with the I colour — completion only tests
non-emptiness, so the colour is irrelevant) and count the full rows of the
resulting `add_piece` row range. -/
def linesClearedBySettle (b : Board) (cells : Fin 4 → Coord) : Nat :=
  let res := b.add_piece ⟨PieceType.IType .HorizontalDown, cells⟩
  (Board.fullRows res.1 res.2.1 res.2.2).length

/-- The bag invariant: the pieces array is a permutation of the spawn bag
and the cursor is in range. -/
def GoodBag (g : Game) : Prop :=
  (∃ σ : Equiv.Perm (Fin 7), ∀ i, g.pieces i = PIECE_TYPES (σ i)) ∧ g.piece_index < 7

/-- Streams whose every draw is in `[0, 7)`. -/
def StreamOk (r : Nat → Nat) : Prop :=
  ∀ n, r n < 7


/-- The all-zeroes rng stream. -/
def constStream : Nat → Nat := fun _ => 0

/-- A game stuck in the `GameOver` state. -/
def overGame : Game where
  pieces := PIECE_TYPES
  current_piece := PIECE_TYPES 0
  board := Board.new
  piece_index := 0
  state := .GameOver
  displacement := 0
  level := 1
  score := 0
  next_level_score := 5
  rotation_cooldown_counter := 0
  translation_cooldown_counter := 0
  render_info := default


/-- Start a game with `Game::new` and then run one `run_loop` tick per
input, threading the rng stream. -/
def Game.newAndRun (r : Nat → Nat) (ticks : List Input) : Option (Game × (Nat → Nat)) :=
  match Game.new r with
  | none => none
  | some gr => gr.1.run_many gr.2 ticks

-- Proof scaffolding for the correctness of `clear_lines`.

/-- The row-source map of a single `removeRow` at index `m`: target row `j`
reads row `j` when `j < m` and row `j + 1` otherwise. -/
def sIdx (m j : Nat) : Nat :=
  if j < m then j else j + 1

/-- The composite row-source map of a sequence of `removeRow`s (head
executed first, so applied last to the target index). -/
def sigmaIdx : List Nat → Nat → Nat
  | [], j => j
  | m :: rest, j => sIdx m (sigmaIdx rest j)

/-- Sequentially remove rows at the given (already adjusted) indices. -/
def removeList (b : Board) : List Nat → Board
  | [] => b
  | m :: rest => removeList (b.removeRow m) rest

/-- The adjusted indices actually passed to `removeRow` by the second pass
of `clear_lines`: the `i`-th marked row minus the number of rows removed
before it. -/
def adjList : List Nat → Nat → List Nat
  | [], _ => []
  | y :: rest, k => (y - k) :: adjList rest (k + 1)

/-- The number of cleared rows strictly below row `y`. -/
def countBelow (F : List Nat) (y : Nat) : Nat :=
  F.countP fun f => decide (f < y)

-- Concrete instances used by witnesses and counterexamples.

/-- A board whose rows 5 and 7 are entirely full and whose rows 6 and 10
hold markers in column 2; everything else is empty. -/
def rows57Board : Board :=
  fun y x =>
    if y = 5 ∨ y = 7 then TetriminoType.I
    else if (y = 6 ∨ y = 10) ∧ x = 2 then TetriminoType.J
    else TetriminoType.EmptySpace

/-- A board whose only settled cell is `(x, y) = (5, 0)`. -/
def tunnelBoard : Board :=
  fun y x => if y = 0 ∧ x = 5 then TetriminoType.I else TetriminoType.EmptySpace

/-- A J piece rotated and translated to the bottom edge: cells
`(4,0), (4,1), (5,1), (4,-1)` — within bounds thanks to the `y = -1`
allowance, with the settled cell `(5,0)` directly below its cell
`(5,1)`. -/
def tunnelPiece : Piece :=
  ⟨.JType, ![⟨4, 0⟩, ⟨4, 1⟩, ⟨5, 1⟩, ⟨4, -1⟩]⟩


/-- Rows 0 and 1 filled except in columns 4 and 5. -/
def levelBoard : Board :=
  fun y x =>
    if (y = 0 ∨ y = 1) ∧ x ≠ 4 ∧ x ≠ 5 then TetriminoType.I
    else TetriminoType.EmptySpace

/-- Input holding only `down`. -/
def downInput : Input := ⟨false, false, true, false, false⟩

/-- Input with no key pressed. -/
def idleInput : Input := ⟨false, false, false, false, false⟩

/-- A playing game about to settle its O piece into rows 0 and 1 of
`levelBoard`, clearing both: score goes from 5 to 8, crossing the
threshold 5 at level 1. -/
def levelGame : Game where
  pieces := PIECE_TYPES
  current_piece := ⟨.OType, ![⟨4, 0⟩, ⟨4, 1⟩, ⟨5, 0⟩, ⟨5, 1⟩]⟩
  board := levelBoard
  piece_index := 0
  state := .Playing
  displacement := 0
  level := 1
  score := 5
  next_level_score := 5
  rotation_cooldown_counter := 3
  translation_cooldown_counter := 3
  render_info := default

def levelRun : Option (Game × GameState × (Nat → Nat)) :=
  levelGame.run_loop downInput constStream

def levelGame1 : Game :=
  match levelRun with
  | some out => out.1
  | none => levelGame

def levelState1 : GameState :=
  match levelRun with
  | some out => out.2.1
  | none => .Playing

def levelStream1 : Nat → Nat :=
  match levelRun with
  | some out => out.2.2
  | none => constStream

/-- A freshly spawned playing game on an empty board. -/
def idleGame : Game where
  pieces := PIECE_TYPES
  current_piece := PIECE_TYPES 0
  board := Board.new
  piece_index := 0
  state := .Playing
  displacement := 0
  level := 1
  score := 0
  next_level_score := 5
  rotation_cooldown_counter := 0
  translation_cooldown_counter := 0
  render_info := default

def idleRun : Option (Game × GameState × (Nat → Nat)) :=
  idleGame.run_loop idleInput constStream

def idleGame1 : Game :=
  match idleRun with
  | some out => out.1
  | none => idleGame

def idleState1 : GameState :=
  match idleRun with
  | some out => out.2.1
  | none => .Playing

def idleStream1 : Nat → Nat :=
  match idleRun with
  | some out => out.2.2
  | none => constStream


def newRun0 : Option (Game × (Nat → Nat)) := Game.newAndRun constStream []

def bagGame0 : Game :=
  match newRun0 with
  | some out => out.1
  | none => overGame

def bagStream0 : Nat → Nat :=
  match newRun0 with
  | some out => out.2
  | none => constStream

-- ===================================================================
--  Theorems
-- ===================================================================

@[simp] theorem Coord.add_def (a b : Coord) : a + b = ⟨a.x + b.x, a.y + b.y⟩ := rfl

@[simp] theorem Coord.sub_def (a b : Coord) : a - b = ⟨a.x - b.x, a.y - b.y⟩ := rfl

@[ext] theorem Coord.ext2 {a b : Coord} (hx : a.x = b.x) (hy : a.y = b.y) : a = b := by
  cases a; cases b; simp_all

theorem piece_ext {p q : Piece} (ht : p.piece_type = q.piece_type)
    (hp : ∀ i, p.position i = q.position i) : p = q := by
  cases p; cases q
  simp only [Piece.mk.injEq]
  exact ⟨ht, funext hp⟩

/-- C1: applying `cw_rot` four times, or `ccw_rot` four times, to any piece
returns exactly the original cells and kind (including I's orientation). -/
theorem rotation_four_cycle (p : Piece) :
    p.cw_rot.cw_rot.cw_rot.cw_rot = p ∧ p.ccw_rot.ccw_rot.ccw_rot.ccw_rot = p := by
  obtain ⟨pt, pos⟩ := p
  constructor <;>
    cases pt <;>
    first
      | rfl
      | (rename_i o
         cases o <;>
           (refine piece_ext (by rfl) fun i => ?_
            simp only [Piece.cw_rot, Piece.ccw_rot, make_relative, add_offset,
              I_CW_OFFSETS, Piece.cwNext, Piece.ccwNext, Coord.add_def, Coord.sub_def]
            ext <;> dsimp <;> omega))
      | (refine piece_ext (by rfl) fun i => ?_
         simp only [Piece.cw_rot, Piece.ccw_rot, make_relative, add_offset,
           Coord.add_def, Coord.sub_def]
         ext <;> dsimp <;> omega)

/-- C10: `cw_rot` and `ccw_rot` are mutual inverses on every piece. -/
theorem rotation_inverses (p : Piece) :
    p.cw_rot.ccw_rot = p ∧ p.ccw_rot.cw_rot = p := by
  obtain ⟨pt, pos⟩ := p
  constructor <;>
    cases pt <;>
    first
      | rfl
      | (rename_i o
         cases o <;>
           (refine piece_ext (by rfl) fun i => ?_
            simp only [Piece.cw_rot, Piece.ccw_rot, make_relative, add_offset,
              I_CW_OFFSETS, Piece.cwNext, Piece.ccwNext, Coord.add_def, Coord.sub_def]
            ext <;> dsimp <;> omega))
      | (refine piece_ext (by rfl) fun i => ?_
         simp only [Piece.cw_rot, Piece.ccw_rot, make_relative, add_offset,
           Coord.add_def, Coord.sub_def]
         ext <;> dsimp <;> omega)

-- Bounds and occupancy -----------------------------------------------

theorem within_bounds_iff (coords : Fin 4 → Coord) :
    Board.is_tetrimino_within_bounds coords = true ↔
      ∀ i : Fin 4, 0 ≤ (coords i).x ∧ (coords i).x < 10 ∧
        -1 ≤ (coords i).y ∧ (coords i).y < 22 := by
  simp only [Board.is_tetrimino_within_bounds, all4, Bool.and_eq_true, decide_eq_true_eq,
    BOARD_WIDTH, BOARD_HEIGHT, Nat.cast_ofNat]
  constructor
  · intro h i
    fin_cases i <;> tauto
  · intro h
    have h0 := h 0
    have h1 := h 1
    have h2 := h 2
    have h3 := h 3
    tauto

/-- C7: `is_tetrimino_within_bounds` accepts a cell set iff every cell has
`0 ≤ x < 10` and `-1 ≤ y < 22`; in particular `y = -1` is accepted and any
cell with `x < 0`, `x ≥ 10`, `y < -1` or `y ≥ 22` is rejected. -/
theorem bounds_check_correct (coords : Fin 4 → Coord) :
    Board.is_tetrimino_within_bounds coords = true ↔
      ∀ i : Fin 4, 0 ≤ (coords i).x ∧ (coords i).x < 10 ∧
        -1 ≤ (coords i).y ∧ (coords i).y < 22 :=
  within_bounds_iff coords

theorem cell_occupied_eq_some {b : Board} {c : Coord} (hx0 : 0 ≤ c.x) (hx : c.x < 10)
    (hy : c.y < 22) :
    Board.cell_occupied b c =
      some (if c.y < 0 then false
            else decide (b c.y.toNat c.x.toNat ≠ TetriminoType.EmptySpace)) := by
  unfold Board.cell_occupied
  by_cases hneg : c.y < 0
  · simp [hneg]
  · have : (0 ≤ c.x ∧ c.x < ((BOARD_WIDTH : Nat) : Int) ∧ c.y < ((BOARD_HEIGHT : Nat) : Int)) := by
      refine ⟨hx0, ?_, ?_⟩ <;> simp [BOARD_WIDTH, BOARD_HEIGHT] <;> omega
    simp [hneg, this]

theorem is_occupied_eq_some_of_bounds {b : Board} {coords : Fin 4 → Coord}
    (h : Board.is_tetrimino_within_bounds coords = true) :
    b.is_occupied coords = some (b.is_occupied_ck coords) := by
  rw [within_bounds_iff] at h
  obtain ⟨hx0, hx0w, _, hy0⟩ := h 0
  obtain ⟨hx1, hx1w, _, hy1⟩ := h 1
  obtain ⟨hx2, hx2w, _, hy2⟩ := h 2
  obtain ⟨hx3, hx3w, _, hy3⟩ := h 3
  unfold Board.is_occupied Board.is_occupied_ck any4
  simp only [Board.any_occupied,
    cell_occupied_eq_some hx0 hx0w hy0, cell_occupied_eq_some hx1 hx1w hy1,
    cell_occupied_eq_some hx2 hx2w hy2, cell_occupied_eq_some hx3 hx3w hy3]
  cases h0 : (if (coords 0).y < 0 then false
      else decide (b (coords 0).y.toNat (coords 0).x.toNat ≠ TetriminoType.EmptySpace)) <;>
    cases h1 : (if (coords 1).y < 0 then false
      else decide (b (coords 1).y.toNat (coords 1).x.toNat ≠ TetriminoType.EmptySpace)) <;>
    cases h2 : (if (coords 2).y < 0 then false
      else decide (b (coords 2).y.toNat (coords 2).x.toNat ≠ TetriminoType.EmptySpace)) <;>
    cases h3 : (if (coords 3).y < 0 then false
      else decide (b (coords 3).y.toNat (coords 3).x.toNat ≠ TetriminoType.EmptySpace)) <;>
    simp

theorem is_occupied_ck_iff (b : Board) (coords : Fin 4 → Coord) :
    b.is_occupied_ck coords = true ↔
      ∃ i : Fin 4, 0 ≤ (coords i).y ∧
        b (coords i).y.toNat (coords i).x.toNat ≠ TetriminoType.EmptySpace := by
  unfold Board.is_occupied_ck any4
  simp only [Bool.or_eq_true]
  constructor
  · intro h
    have key : ∀ j : Fin 4,
        ((if (coords j).y < 0 then false
          else decide (b (coords j).y.toNat (coords j).x.toNat ≠ TetriminoType.EmptySpace)) = true) →
        ∃ i : Fin 4, 0 ≤ (coords i).y ∧
          b (coords i).y.toNat (coords i).x.toNat ≠ TetriminoType.EmptySpace := by
      intro j hj
      by_cases hneg : (coords j).y < 0
      · simp [hneg] at hj
      · simp only [hneg, if_false, decide_eq_true_eq] at hj
        exact ⟨j, by omega, hj⟩
    rcases h with ((h | h) | h) | h
    exacts [key 0 h, key 1 h, key 2 h, key 3 h]
  · rintro ⟨i, hy, hne⟩
    have hval : (if (coords i).y < 0 then false
        else decide (b (coords i).y.toNat (coords i).x.toNat ≠ TetriminoType.EmptySpace)) = true := by
      have : ¬ (coords i).y < 0 := by omega
      simp [this, hne]
    fin_cases i
    · exact Or.inl (Or.inl (Or.inl hval))
    · exact Or.inl (Or.inl (Or.inr hval))
    · exact Or.inl (Or.inr hval)
    · exact Or.inr hval

/-- C8: under the within-bounds precondition, `is_occupied` performs no
out-of-range access (it returns `some _`, never the panic value `none`),
cells with `y < 0` are treated as unoccupied, and the result is `true` iff
some cell with `y ≥ 0` maps to a non-empty board cell. -/
theorem is_occupied_safe (b : Board) (coords : Fin 4 → Coord)
    (h : ∀ i : Fin 4, 0 ≤ (coords i).x ∧ (coords i).x < 10 ∧
        -1 ≤ (coords i).y ∧ (coords i).y < 22) :
    b.is_occupied coords =
      some (decide (∃ i : Fin 4, 0 ≤ (coords i).y ∧
        b (coords i).y.toNat (coords i).x.toNat ≠ TetriminoType.EmptySpace)) := by
  rw [is_occupied_eq_some_of_bounds ((within_bounds_iff coords).2 h)]
  congr 1
  have hiff := is_occupied_ck_iff b coords
  by_cases hp : ∃ i : Fin 4, 0 ≤ (coords i).y ∧
      b (coords i).y.toNat (coords i).x.toNat ≠ TetriminoType.EmptySpace
  · simp [hiff.2 hp, hp]
  · have hfalse : b.is_occupied_ck coords = false := by
      cases hv : b.is_occupied_ck coords
      · rfl
      · exact absurd (hiff.1 hv) hp
    simp [hfalse, hp]

-- Gravity and the vertical walk --------------------------------------

@[simp] theorem apply_gravity_position (p : Piece) (k : Nat) (i : Fin 4) :
    (p.apply_gravity k).position i = ⟨(p.position i).x, (p.position i).y - k⟩ := by
  simp only [Piece.apply_gravity, add_offset, Coord.add_def, Coord.mk.injEq]
  omega

@[simp] theorem apply_gravity_type (p : Piece) (k : Nat) :
    (p.apply_gravity k).piece_type = p.piece_type := rfl

theorem apply_gravity_add (p : Piece) (a b : Nat) :
    (p.apply_gravity a).apply_gravity b = p.apply_gravity (a + b) :=
  piece_ext rfl fun i => by
    simp only [apply_gravity_position, Coord.mk.injEq, true_and]
    omega

@[simp] theorem apply_gravity_zero (p : Piece) : p.apply_gravity 0 = p :=
  piece_ext rfl fun i => by
    simp only [apply_gravity_position, Nat.cast_zero, sub_zero]

theorem blockedAt_shift (b : Board) (p : Piece) (k : Nat) :
    blockedAt b (p.apply_gravity 1) k = blockedAt b p (k + 1) := by
  unfold blockedAt
  rw [apply_gravity_add, Nat.add_comm 1 k]

theorem at_bottom_iff (coords : Fin 4 → Coord) :
    Board.is_at_the_bottom coords = true ↔
      (∃ i : Fin 4, (coords i).y = -1) ∧ ∀ i : Fin 4, -1 ≤ (coords i).y := by
  unfold Board.is_at_the_bottom any4
  constructor
  · intro h
    simp only [Bool.and_eq_true, Bool.or_eq_true, decide_eq_true_eq, Bool.not_eq_true',
      Bool.or_eq_false_iff, decide_eq_false_iff_not] at h
    obtain ⟨hsome, hnone⟩ := h
    obtain ⟨⟨⟨n0, n1⟩, n2⟩, n3⟩ := hnone
    constructor
    · rcases hsome with ((h | h) | h) | h
      exacts [⟨0, h⟩, ⟨1, h⟩, ⟨2, h⟩, ⟨3, h⟩]
    · intro i
      fin_cases i <;> simp_all
  · rintro ⟨⟨i, hi⟩, hall⟩
    simp only [Bool.and_eq_true, Bool.or_eq_true, decide_eq_true_eq, Bool.not_eq_true',
      Bool.or_eq_false_iff, decide_eq_false_iff_not]
    have a0 := hall 0
    have a1 := hall 1
    have a2 := hall 2
    have a3 := hall 3
    refine ⟨?_, ⟨⟨by omega, by omega⟩, by omega⟩, by omega⟩
    fin_cases i <;> tauto

/-- C2 (amended: the piece's cells start at `y ≥ 0`, not merely within
bounds): the vertical walk stops at the first depth `k ≤ d` at which the
lowered position collides or reaches the bottom, reverting to depth `k - 1`
and reporting settled; with no obstruction within `d` rows it descends the
full `d` rows unsettled. -/
theorem vertical_walk_characterization (b : Board) (p : Piece) (d : Nat)
    (H : ∀ i : Fin 4, 0 ≤ (p.position i).x ∧ (p.position i).x < 10 ∧
        0 ≤ (p.position i).y ∧ (p.position i).y < 22) :
    ((∀ k, 1 ≤ k → k ≤ d → blockedAt b p k = false) →
       handle_vertical_movement p b d = (p.apply_gravity d, false))
    ∧ (∀ k, 1 ≤ k → k ≤ d → blockedAt b p k = true →
        (∀ j, 1 ≤ j → j < k → blockedAt b p j = false) →
        handle_vertical_movement p b d = (p.apply_gravity (k - 1), true)) := by
  induction d generalizing p with
  | zero =>
    refine ⟨fun _ => ?_, fun k hk1 hk0 _ _ => absurd hk0 (by omega)⟩
    simp [handle_vertical_movement]
  | succ d ih =>
    have hwb : Board.is_tetrimino_within_bounds (p.apply_gravity 1).position = true := by
      rw [within_bounds_iff]
      intro i
      have hi := H i
      simp only [apply_gravity_position, Nat.cast_one]
      omega
    cases hb1 : blockedAt b p 1 with
    | true =>
      have hcond : (b.is_occupied_ck (p.apply_gravity 1).position ||
          Board.is_at_the_bottom (p.apply_gravity 1).position) = true := hb1
      have hstep : handle_vertical_movement p b (d + 1) = (p, true) := by
        simp [handle_vertical_movement, hwb, hcond]
      refine ⟨fun hall => absurd (hall 1 le_rfl (by omega)) (by simp [hb1]), ?_⟩
      intro k hk1 hkd hbk hmin
      have hk : k = 1 := by
        by_contra hne
        have h2 : 2 ≤ k := by omega
        have := hmin 1 le_rfl (by omega)
        rw [hb1] at this
        exact Bool.noConfusion this
      subst hk
      simpa using hstep
    | false =>
      have hcond : (b.is_occupied_ck (p.apply_gravity 1).position ||
          Board.is_at_the_bottom (p.apply_gravity 1).position) = false := hb1
      have hq : handle_vertical_movement p b (d + 1) =
          handle_vertical_movement (p.apply_gravity 1) b d := by
        simp [handle_vertical_movement, hwb, hcond]
      have hnobottom : Board.is_at_the_bottom (p.apply_gravity 1).position = false := by
        rcases Bool.or_eq_false_iff.1 hcond with ⟨_, hb⟩
        exact hb
      -- With every cell at `y ≥ 0` before the step, every lowered cell is at
      -- `y ≥ -1`; since the step is not at the bottom, no cell sits at `-1`,
      -- so after the step all cells are again at `y ≥ 0`.
      have hge : ∀ j : Fin 4, -1 ≤ ((p.apply_gravity 1).position j).y := by
        intro j
        have := (H j).2.2.1
        simp only [apply_gravity_position, Nat.cast_one]
        omega
      have hne1 : ∀ j : Fin 4, ((p.apply_gravity 1).position j).y ≠ -1 := by
        intro j hj
        have habs : Board.is_at_the_bottom (p.apply_gravity 1).position = true :=
          (at_bottom_iff _).2 ⟨⟨j, hj⟩, hge⟩
        rw [hnobottom] at habs
        exact Bool.noConfusion habs
      have Hq : ∀ i : Fin 4, 0 ≤ ((p.apply_gravity 1).position i).x ∧
          ((p.apply_gravity 1).position i).x < 10 ∧
          0 ≤ ((p.apply_gravity 1).position i).y ∧
          ((p.apply_gravity 1).position i).y < 22 := by
        intro i
        have hi := H i
        have h1 := hne1 i
        have h2 := hge i
        simp only [apply_gravity_position, Nat.cast_one] at h1 h2 ⊢
        omega
      obtain ⟨ih1, ih2⟩ := ih (p.apply_gravity 1) Hq
      constructor
      · intro hall
        rw [hq, ih1 (fun k h1 h2 => by
          rw [blockedAt_shift]
          exact hall (k + 1) (by omega) (by omega))]
        rw [apply_gravity_add, Nat.add_comm 1 d]
      · intro k hk1 hkd hbk hmin
        have hk2 : 2 ≤ k := by
          by_contra hlt
          have : k = 1 := by omega
          subst this
          rw [hb1] at hbk
          exact Bool.false_ne_true hbk
        have hshiftk : blockedAt b (p.apply_gravity 1) (k - 1) = true := by
          rw [blockedAt_shift]
          have : k - 1 + 1 = k := by omega
          rw [this]
          exact hbk
        have hminq : ∀ j, 1 ≤ j → j < k - 1 → blockedAt b (p.apply_gravity 1) j = false := by
          intro j hj1 hjk
          rw [blockedAt_shift]
          exact hmin (j + 1) (by omega) (by omega)
        rw [hq, ih2 (k - 1) (by omega) (by omega) hshiftk hminq]
        rw [apply_gravity_add]
        have : 1 + (k - 1 - 1) = k - 1 := by omega
        rw [this]

/-- C2 witness: the spawn I piece on the empty board with displacement 25
satisfies the amended precondition, so the characterization applies;
the walk stops at the bottom (first obstruction at depth 21). -/
theorem vertical_walk_characterization_witness :
    (∀ i : Fin 4, 0 ≤ ((PIECE_TYPES 0).position i).x ∧ ((PIECE_TYPES 0).position i).x < 10 ∧
        0 ≤ ((PIECE_TYPES 0).position i).y ∧ ((PIECE_TYPES 0).position i).y < 22)
    ∧ (((∀ k, 1 ≤ k → k ≤ 25 → blockedAt Board.new (PIECE_TYPES 0) k = false) →
         handle_vertical_movement (PIECE_TYPES 0) Board.new 25 =
           ((PIECE_TYPES 0).apply_gravity 25, false))
       ∧ (∀ k, 1 ≤ k → k ≤ 25 → blockedAt Board.new (PIECE_TYPES 0) k = true →
           (∀ j, 1 ≤ j → j < k → blockedAt Board.new (PIECE_TYPES 0) j = false) →
           handle_vertical_movement (PIECE_TYPES 0) Board.new 25 =
             ((PIECE_TYPES 0).apply_gravity (k - 1), true))) :=
  ⟨by decide, vertical_walk_characterization Board.new (PIECE_TYPES 0) 25 (by decide)⟩

/-- C2 counterexample: `tunnelPiece` is within bounds (its lowest cells sit
at `y = -1`), lowering it one row collides with the settled cell `(5, 0)`
(an obstruction at depth 1), yet `handle_vertical_movement` with
displacement 2 moves it two full rows down - past the occupied cell - and
reports it unsettled, because the lowered positions fail the bounds check
and the collision/bottom tests are skipped. -/
theorem vertical_walk_tunnels :
    Board.is_tetrimino_within_bounds tunnelPiece.position = true ∧
    blockedAt tunnelBoard tunnelPiece 1 = true ∧
    handle_vertical_movement tunnelPiece tunnelBoard 2 =
      (tunnelPiece.apply_gravity 2, false) := by
  refine ⟨by decide, by decide, ?_⟩
  decide

-- Correctness of `clear_lines` ----------------------------------------

theorem removeRowsAdj_eq_removeList (F : List Nat) (b : Board) (k : Nat) :
    Board.removeRowsAdj b F k = removeList b (adjList F k) := by
  induction F generalizing b k with
  | nil => rfl
  | cons y rest ih => simp [Board.removeRowsAdj, adjList, removeList, ih]

theorem sigmaIdx_ge (M : List Nat) (j : Nat) : j ≤ sigmaIdx M j := by
  induction M with
  | nil => simp [sigmaIdx]
  | cons m rest ih =>
    simp only [sigmaIdx, sIdx]
    split <;> omega

theorem sigmaIdx_le (M : List Nat) (j : Nat) : sigmaIdx M j ≤ j + M.length := by
  induction M with
  | nil => simp [sigmaIdx]
  | cons m rest ih =>
    simp only [sigmaIdx, sIdx, List.length_cons]
    split <;> omega

theorem sigmaIdx_all_le (M : List Nat) (j : Nat) (h : ∀ m ∈ M, m ≤ j) :
    sigmaIdx M j = j + M.length := by
  induction M with
  | nil => simp [sigmaIdx]
  | cons m rest ih =>
    have hm : m ≤ j := h m (by simp)
    have hrest := ih (fun x hx => h x (by simp [hx]))
    simp only [sigmaIdx, sIdx, List.length_cons, hrest]
    split <;> omega

theorem removeList_surv (M : List Nat) (b : Board) (j x : Nat)
    (hM : ∀ m ∈ M, m ≤ 21) (hj : j + M.length < 22) :
    removeList b M j x = b (sigmaIdx M j) x := by
  induction M generalizing b with
  | nil => simp [removeList, sigmaIdx]
  | cons m rest ih =>
    have hstep : removeList b (m :: rest) j x = removeList (b.removeRow m) rest j x := rfl
    rw [hstep, ih (b.removeRow m) (fun m2 hm2 => hM m2 (by simp [hm2]))
      (by simp only [List.length_cons] at hj; omega)]
    have hv : sigmaIdx rest j ≤ 20 := by
      have := sigmaIdx_le rest j
      simp only [List.length_cons] at hj
      omega
    show Board.removeRow b m (sigmaIdx rest j) x = b (sIdx m (sigmaIdx rest j)) x
    unfold Board.removeRow sIdx
    have h21 : ¬ sigmaIdx rest j = BOARD_HEIGHT - 1 := by
      simp only [BOARD_HEIGHT]
      omega
    by_cases hvm : sigmaIdx rest j < m
    · have hno : ¬ (m ≤ sigmaIdx rest j ∧ sigmaIdx rest j ≤ BOARD_HEIGHT - 2) := by
        simp only [BOARD_HEIGHT]
        omega
      rw [if_neg h21, if_neg hno, if_pos hvm]
    · have hyes : m ≤ sigmaIdx rest j ∧ sigmaIdx rest j ≤ BOARD_HEIGHT - 2 := by
        simp only [BOARD_HEIGHT]
        omega
      rw [if_neg h21, if_pos hyes, if_neg hvm]

theorem removeList_empty (M : List Nat) (b : Board) (j x : Nat)
    (hM : ∀ m ∈ M, m ≤ 22 - M.length) (hj1 : 22 - M.length ≤ j) (hj2 : j < 22) :
    removeList b M j x = TetriminoType.EmptySpace := by
  induction M generalizing b with
  | nil =>
    simp only [List.length_nil, Nat.sub_zero] at hj1
    exact absurd hj2 (by omega)
  | cons m rest ih =>
    by_cases hcase : 22 - rest.length ≤ j
    · exact ih (b.removeRow m)
        (fun m2 hm2 => by
          have := hM m2 (by simp [hm2])
          simp only [List.length_cons] at this
          omega)
        hcase
    · have hrle : ∀ m2 ∈ rest, m2 ≤ 21 := by
        intro m2 hm2
        have := hM m2 (by simp [hm2])
        simp only [List.length_cons] at this
        omega
      have hjval : j = 21 - rest.length := by
        simp only [List.length_cons] at hj1
        omega
      have hjlen : j + rest.length = 21 := by
        simp only [List.length_cons] at hj1
        omega
      have hsurv : removeList (b.removeRow m) rest j x
          = Board.removeRow b m (sigmaIdx rest j) x :=
        removeList_surv rest (b.removeRow m) j x hrle (by omega)
      have hall : sigmaIdx rest j = j + rest.length :=
        sigmaIdx_all_le rest j (fun m2 hm2 => by
          have := hM m2 (by simp [hm2])
          simp only [List.length_cons] at this
          omega)
      show removeList (b.removeRow m) rest j x = _
      rw [hsurv, hall, hjlen]
      unfold Board.removeRow
      simp [BOARD_HEIGHT]

theorem pairwise_lt_length_le : ∀ (L : List Nat) (lo hi : Nat),
    L.Pairwise (· < ·) → (∀ a ∈ L, lo < a ∧ a < hi) → L.length ≤ hi - (lo + 1) := by
  intro L
  induction L with
  | nil => intro lo hi _ _; simp
  | cons a rest ih =>
    intro lo hi hpw hmem
    obtain ⟨hhead, hrest⟩ := List.pairwise_cons.1 hpw
    have h1 := ih a hi hrest (fun r hr => ⟨hhead r hr, (hmem r (by simp [hr])).2⟩)
    have h2 := hmem a (by simp)
    simp only [List.length_cons]
    omega

theorem pairwise_lt_length_le0 (L : List Nat) (hi : Nat)
    (hpw : L.Pairwise (· < ·)) (hmem : ∀ a ∈ L, a < hi) : L.length ≤ hi := by
  cases L with
  | nil => simp
  | cons a rest =>
    obtain ⟨hhead, hrest⟩ := List.pairwise_cons.1 hpw
    have h1 := pairwise_lt_length_le rest a hi hrest
      (fun r hr => ⟨hhead r hr, hmem r (by simp [hr])⟩)
    have h2 := hmem a (by simp)
    simp only [List.length_cons]
    omega

theorem countP_split (F : List Nat) (p : Nat → Bool) :
    F.length = F.countP p + (F.filter (fun a => !(p a))).length := by
  induction F with
  | nil => rfl
  | cons a rest ih =>
    by_cases h : p a = true
    · simp only [List.countP_cons, List.filter_cons, h, Bool.not_true, List.length_cons,
        if_true]
      simp only [Bool.false_eq_true, if_false]
      omega
    · have h2 : p a = false := by
        cases hpa : p a
        · rfl
        · exact absurd hpa h
      simp only [List.countP_cons, List.filter_cons, h2, Bool.not_false, List.length_cons,
        if_true]
      simp only [Bool.false_eq_true, if_false]
      omega

theorem adjList_length : ∀ (F : List Nat) (k : Nat), (adjList F k).length = F.length := by
  intro F
  induction F with
  | nil => intro k; rfl
  | cons y rest ih =>
    intro k
    simp [adjList, ih]

theorem adjList_le : ∀ (F : List Nat) (k : Nat), (∀ f ∈ F, f ≤ 21) →
    ∀ m ∈ adjList F k, m ≤ 21 := by
  intro F
  induction F with
  | nil =>
    intro k _ m hm
    simp [adjList] at hm
  | cons y rest ih =>
    intro k hF m hm
    simp only [adjList, List.mem_cons] at hm
    rcases hm with h | h
    · have := hF y (by simp)
      omega
    · exact ih (k + 1) (fun f hf => hF f (by simp [hf])) m h

theorem adjList_bound : ∀ (F : List Nat) (k : Nat),
    F.Pairwise (· < ·) → (∀ f ∈ F, f < 22 ∧ k ≤ f) →
    ∀ m ∈ adjList F k, m + k ≤ 22 - F.length := by
  intro F
  induction F with
  | nil =>
    intro k _ _ m hm
    simp [adjList] at hm
  | cons f rest ih =>
    intro k hpw hF m hm
    obtain ⟨hhead, hrest⟩ := List.pairwise_cons.1 hpw
    have hfb := hF f (by simp)
    have hlen : rest.length ≤ 22 - (f + 1) :=
      pairwise_lt_length_le rest f 22 hrest
        (fun r hr => ⟨hhead r hr, (hF r (by simp [hr])).1⟩)
    simp only [adjList, List.mem_cons] at hm
    simp only [List.length_cons]
    rcases hm with h | h
    · omega
    · have := ih (k + 1) hrest
        (fun r hr => ⟨(hF r (by simp [hr])).1, by have := hhead r hr; omega⟩) m h
      omega

theorem sigmaIdx_adjList : ∀ (F : List Nat) (k y : Nat),
    F.Pairwise (· < ·) → (∀ f ∈ F, k ≤ f) → y ∉ F → k ≤ y →
    sigmaIdx (adjList F k) (y - k - countBelow F y) = y - k := by
  intro F
  induction F with
  | nil =>
    intro k y _ _ _ _
    simp [adjList, sigmaIdx, countBelow]
  | cons f rest ih =>
    intro k y hpw hk hy hky
    obtain ⟨hhead, hrest⟩ := List.pairwise_cons.1 hpw
    have hkf : k ≤ f := hk f (by simp)
    have hyne : y ≠ f := by
      intro h
      exact hy (by simp [h])
    have hynr : y ∉ rest := fun h => hy (by simp [h])
    by_cases hlt : y < f
    · have hnf : ¬ f < y := by omega
      have hcbF : countBelow (f :: rest) y = 0 := by
        unfold countBelow
        rw [List.countP_eq_zero]
        intro r hr
        simp only [List.mem_cons] at hr
        simp only [decide_eq_true_eq]
        rcases hr with h | h
        · omega
        · have := hhead r h
          omega
      have hcb1 : countBelow rest (y + 1) = 0 := by
        unfold countBelow
        rw [List.countP_eq_zero]
        intro r hr
        simp only [decide_eq_true_eq]
        have := hhead r hr
        omega
      have hih := ih (k + 1) (y + 1) hrest
        (fun r hr => by have := hhead r hr; omega)
        (fun h => by have := hhead _ h; omega)
        (by omega)
      rw [hcb1] at hih
      have e1 : y + 1 - (k + 1) - 0 = y - k := by omega
      have e2 : y + 1 - (k + 1) = y - k := by omega
      rw [e1, e2] at hih
      rw [hcbF]
      show sIdx (f - k) (sigmaIdx (adjList rest (k + 1)) (y - k - 0)) = y - k
      rw [Nat.sub_zero, hih]
      unfold sIdx
      rw [if_pos (by omega)]
    · have hfy : f < y := by omega
      have hcbF : countBelow (f :: rest) y = countBelow rest y + 1 := by
        unfold countBelow
        rw [List.countP_cons]
        simp [hfy]
      have hih := ih (k + 1) y hrest
        (fun r hr => by have := hhead r hr; omega)
        hynr (by omega)
      rw [hcbF]
      show sIdx (f - k) (sigmaIdx (adjList rest (k + 1)) (y - k - (countBelow rest y + 1))) = y - k
      have e1 : y - k - (countBelow rest y + 1) = y - (k + 1) - countBelow rest y := by omega
      rw [e1, hih]
      unfold sIdx
      rw [if_neg (by omega)]
      omega

theorem pairwise_lt_range1 : ∀ (n s : Nat), (List.range' s n 1).Pairwise (· < ·) := by
  intro n
  induction n with
  | zero =>
    intro s
    simp
  | succ n ih =>
    intro s
    rw [List.range'_succ, List.pairwise_cons]
    exact ⟨fun a ha => by have := (List.mem_range'_1).1 ha; omega, ih (s + 1)⟩

theorem fullRows_pairwise (b : Board) (start stop : Nat) :
    (b.fullRows start stop).Pairwise (· < ·) :=
  (pairwise_lt_range1 _ _).filter _

theorem mem_fullRows (b : Board) (start stop y : Nat) :
    y ∈ b.fullRows start stop ↔ start ≤ y ∧ y < stop ∧ Board.isFullRow b y = true := by
  unfold Board.fullRows
  rw [List.mem_filter, List.mem_range'_1]
  constructor
  · rintro ⟨⟨h1, h2⟩, h3⟩
    exact ⟨h1, by omega, h3⟩
  · rintro ⟨h1, h2, h3⟩
    exact ⟨⟨h1, by omega⟩, h3⟩

theorem isFullRow_iff (b : Board) (y : Nat) :
    Board.isFullRow b y = true ↔ ∀ x, x < 10 → b y x ≠ TetriminoType.EmptySpace := by
  unfold Board.isFullRow BOARD_WIDTH
  rw [List.all_eq_true]
  constructor
  · intro h x hx
    have := h x (List.mem_range.2 hx)
    simpa using this
  · intro h a ha
    simp [h a (List.mem_range.1 ha)]

/-- C5: with the row range inside the board and at most 4 full rows in it,
`clear_lines` returns exactly the number of full rows (all 10 cells
non-empty; a value in `0..=4`); each surviving row `y` moves down by the
number of cleared rows below it (so rows below the lowest cleared row are
unchanged and relative order is preserved), and the vacated topmost rows
become entirely empty. -/
theorem clear_lines_correct (b : Board) (start stop : Nat)
    (hstop : stop ≤ 22)
    (hfour : (b.fullRows start stop).length ≤ 4) :
    b.clear_lines start stop =
      some (Board.removeRowsAdj b (b.fullRows start stop) 0,
        (b.fullRows start stop).length) ∧
    (b.fullRows start stop).length ≤ 4 ∧
    (∀ y, y ∈ b.fullRows start stop ↔
      start ≤ y ∧ y < stop ∧ ∀ x, x < 10 → b y x ≠ TetriminoType.EmptySpace) ∧
    (∀ y, y < 22 → y ∉ b.fullRows start stop → ∀ x,
      Board.removeRowsAdj b (b.fullRows start stop) 0
        (y - countBelow (b.fullRows start stop) y) x = b y x) ∧
    (∀ y, y < 22 → (∀ f ∈ b.fullRows start stop, y < f) → ∀ x,
      Board.removeRowsAdj b (b.fullRows start stop) 0 y x = b y x) ∧
    (∀ j, 22 - (b.fullRows start stop).length ≤ j → j < 22 → ∀ x,
      Board.removeRowsAdj b (b.fullRows start stop) 0 j x
        = TetriminoType.EmptySpace) := by
  have hpw : (b.fullRows start stop).Pairwise (· < ·) := fullRows_pairwise b start stop
  have hmem22 : ∀ f ∈ b.fullRows start stop, f < 22 := by
    intro f hf
    have := (mem_fullRows b start stop f).1 hf
    omega
  have hle21 : ∀ f ∈ b.fullRows start stop, f ≤ 21 := fun f hf => by
    have := hmem22 f hf
    omega
  have hclear : b.clear_lines start stop =
      some (Board.removeRowsAdj b (b.fullRows start stop) 0,
        (b.fullRows start stop).length) := by
    simp only [Board.clear_lines]
    have h1 : ¬ (BOARD_HEIGHT < stop ∧ start < stop) := by
      simp only [BOARD_HEIGHT]
      omega
    rw [if_neg h1, if_pos hfour]
  have hsurv : ∀ y, y < 22 → y ∉ b.fullRows start stop → ∀ x,
      Board.removeRowsAdj b (b.fullRows start stop) 0
        (y - countBelow (b.fullRows start stop) y) x = b y x := by
    intro y hy22 hynotin x
    rw [removeRowsAdj_eq_removeList]
    have hcb_le : countBelow (b.fullRows start stop) y ≤ y := by
      unfold countBelow
      rw [List.countP_eq_length_filter]
      exact pairwise_lt_length_le0 _ y (hpw.filter _) (fun a ha => by
        have := (List.mem_filter.1 ha).2
        simpa using this)
    have habove : ((b.fullRows start stop).filter
        (fun a => !(decide (a < y)))).length ≤ 22 - (y + 1) := by
      apply pairwise_lt_length_le _ y 22 (hpw.filter _)
      intro a ha
      obtain ⟨haF, hap⟩ := List.mem_filter.1 ha
      have h22 := hmem22 a haF
      have hne : a ≠ y := fun h => hynotin (h ▸ haF)
      simp only [Bool.not_eq_true', decide_eq_false_iff_not] at hap
      exact ⟨by omega, h22⟩
    have hsplit := countP_split (b.fullRows start stop) (fun f => decide (f < y))
    have hlen_lt : (y - countBelow (b.fullRows start stop) y)
        + (adjList (b.fullRows start stop) 0).length < 22 := by
      rw [adjList_length]
      unfold countBelow
      unfold countBelow at hcb_le
      omega
    rw [removeList_surv (adjList (b.fullRows start stop) 0) b _ x
      (adjList_le (b.fullRows start stop) 0 hle21) hlen_lt]
    have hsig := sigmaIdx_adjList (b.fullRows start stop) 0 y hpw
      (fun f _ => Nat.zero_le f) hynotin (Nat.zero_le y)
    simp only [Nat.sub_zero] at hsig
    rw [hsig]
  refine ⟨hclear, hfour, ?_, hsurv, ?_, ?_⟩
  · intro y
    rw [mem_fullRows]
    constructor
    · rintro ⟨h1, h2, h3⟩
      exact ⟨h1, h2, (isFullRow_iff b y).1 h3⟩
    · rintro ⟨h1, h2, h3⟩
      exact ⟨h1, h2, (isFullRow_iff b y).2 h3⟩
  · intro y hy22 hbelow x
    have hynotin : y ∉ b.fullRows start stop := fun h => by
      have := hbelow y h
      omega
    have hcb0 : countBelow (b.fullRows start stop) y = 0 := by
      unfold countBelow
      rw [List.countP_eq_zero]
      intro f hf
      simp only [decide_eq_true_eq]
      have := hbelow f hf
      omega
    have := hsurv y hy22 hynotin x
    rw [hcb0, Nat.sub_zero] at this
    exact this
  · intro j hj1 hj2 x
    rw [removeRowsAdj_eq_removeList]
    apply removeList_empty
    · intro m hm
      have := adjList_bound (b.fullRows start stop) 0 hpw
        (fun f hf => ⟨hmem22 f hf, Nat.zero_le f⟩) m hm
      rw [adjList_length]
      omega
    · rw [adjList_length]
      exact hj1
    · exact hj2

/-- C5 witness: the board with exactly rows 5 and 7 full in the checked
range `[4, 9)` satisfies the hypotheses, and `clear_lines` returns the
compacted board with count 2. -/
theorem clear_lines_correct_witness :
    (9 ≤ 22 ∧ (rows57Board.fullRows 4 9).length ≤ 4) ∧
    rows57Board.clear_lines 4 9 =
      some (Board.removeRowsAdj rows57Board (rows57Board.fullRows 4 9) 0,
        (rows57Board.fullRows 4 9).length) :=
  ⟨⟨by omega, by decide⟩,
    (clear_lines_correct rows57Board 4 9 (by omega) (by decide)).1⟩

/-- C8 witness: `tunnelPiece`'s cells are within bounds on `tunnelBoard`
(one cell at `y = -1`), and `is_occupied` returns `some false` there
without indexing the negative row. -/
theorem is_occupied_safe_witness :
    (∀ i : Fin 4, 0 ≤ (tunnelPiece.position i).x ∧ (tunnelPiece.position i).x < 10 ∧
        -1 ≤ (tunnelPiece.position i).y ∧ (tunnelPiece.position i).y < 22) ∧
    tunnelBoard.is_occupied tunnelPiece.position =
      some (decide (∃ i : Fin 4, 0 ≤ (tunnelPiece.position i).y ∧
        tunnelBoard (tunnelPiece.position i).y.toNat (tunnelPiece.position i).x.toNat
          ≠ TetriminoType.EmptySpace)) :=
  ⟨by decide, is_occupied_safe tunnelBoard tunnelPiece.position (by decide)⟩

-- The run_loop phases --------------------------------------------------

theorem horizontalPhase_fields (g : Game) (input : Input) :
    (g.horizontalPhase input).score = g.score ∧
    (g.horizontalPhase input).level = g.level ∧
    (g.horizontalPhase input).next_level_score = g.next_level_score ∧
    (g.horizontalPhase input).board = g.board ∧
    (g.horizontalPhase input).pieces = g.pieces ∧
    (g.horizontalPhase input).piece_index = g.piece_index ∧
    (g.horizontalPhase input).render_info = g.render_info ∧
    (g.horizontalPhase input).displacement = g.displacement ∧
    (g.horizontalPhase input).state = g.state := by
  unfold Game.horizontalPhase
  by_cases h : g.translation_cooldown_counter > 0
  · simp [h]
  · rw [if_neg h]
    cases handle_horizontal_input input g.current_piece g.valid_piece_location <;> simp

theorem rotationPhase_fields (g : Game) (input : Input) :
    (g.rotationPhase input).score = g.score ∧
    (g.rotationPhase input).level = g.level ∧
    (g.rotationPhase input).next_level_score = g.next_level_score ∧
    (g.rotationPhase input).board = g.board ∧
    (g.rotationPhase input).pieces = g.pieces ∧
    (g.rotationPhase input).piece_index = g.piece_index ∧
    (g.rotationPhase input).render_info = g.render_info ∧
    (g.rotationPhase input).displacement = g.displacement ∧
    (g.rotationPhase input).state = g.state := by
  unfold Game.rotationPhase
  by_cases h : g.rotation_cooldown_counter > 0
  · simp [h]
  · rw [if_neg h]
    cases handle_rotation_input input g.current_piece g.valid_piece_location <;> simp

theorem finishPhase_fields (g : Game) (prev : Piece) :
    (g.finishPhase prev).1.score = g.score ∧
    (g.finishPhase prev).1.level = g.level ∧
    (g.finishPhase prev).1.next_level_score = g.next_level_score ∧
    (g.finishPhase prev).1.pieces = g.pieces ∧
    (g.finishPhase prev).1.piece_index = g.piece_index ∧
    (g.finishPhase prev).1.board = g.board ∧
    (g.finishPhase prev).1.current_piece = g.current_piece ∧
    (g.finishPhase prev).1.render_info.newly_settled_pieces
      = g.render_info.newly_settled_pieces := by
  simp only [Game.finishPhase]
  split <;> split <;> simp

theorem run_loop_playing (g : Game) (input : Input) (r : Nat → Nat)
    (g' : Game) (st : GameState) (r' : Nat → Nat)
    (hplay : g.state = GameState.Playing)
    (h : g.run_loop input r = some (g', st, r')) :
    ∃ g5 r5,
      ((Game.horizontalPhase { g with render_info := default } input).rotationPhase
          input).verticalPhase input r = some (g5, r5) ∧
      g' = (g5.finishPhase g.current_piece).1 ∧
      st = (g5.finishPhase g.current_piece).2 ∧ r' = r5 := by
  rw [hplay]
  simp only [Game.run_loop, hplay] at h
  rw [Option.map_eq_some'] at h
  obtain ⟨⟨g5, r5⟩, hv, heq⟩ := h
  simp only [Prod.mk.injEq] at heq
  exact ⟨g5, r5, hv, heq.1.symm, heq.2.1.symm, heq.2.2.symm⟩

/-- C9: `GameOver` is terminal — a `GameOver` game returns from `run_loop`
immediately with `GameOver`, the whole `Game` value and rng completely
unchanged, and hence any sequence of further ticks leaves it unchanged:
the state never returns to `Playing`. -/
theorem game_over_terminal (g : Game) (hgo : g.state = GameState.GameOver) :
    (∀ (input : Input) (r : Nat → Nat),
        g.run_loop input r = some (g, GameState.GameOver, r))
    ∧ ∀ (ticks : List Input) (r : Nat → Nat), g.run_many r ticks = some (g, r) := by
  have h1 : ∀ (input : Input) (r : Nat → Nat),
      g.run_loop input r = some (g, GameState.GameOver, r) := by
    intro input r
    simp [Game.run_loop, hgo]
  refine ⟨h1, ?_⟩
  intro ticks
  induction ticks with
  | nil => intro r; rfl
  | cons a l ih =>
    intro r
    show (match g.run_loop a r with
          | none => none
          | some grr => Game.run_many grr.1 grr.2.2 l) = some (g, r)
    rw [h1 a r]
    exact ih r

/-- C9 witness: a concrete `GameOver` game. -/
theorem game_over_terminal_witness :
    overGame.state = GameState.GameOver ∧
    ((∀ (input : Input) (r : Nat → Nat),
        overGame.run_loop input r = some (overGame, GameState.GameOver, r))
     ∧ ∀ (ticks : List Input) (r : Nat → Nat),
        overGame.run_many r ticks = some (overGame, r)) :=
  ⟨rfl, game_over_terminal overGame rfl⟩

-- Colour independence of line counting --------------------------------

theorem tetTypeOf_ne_empty (pt : PieceType) : tetTypeOf pt ≠ TetriminoType.EmptySpace := by
  cases pt <;> simp [tetTypeOf]

theorem stamp_occ (b1 b2 : Board) (c : Coord) (t1 t2 : TetriminoType)
    (h1 : t1 ≠ TetriminoType.EmptySpace) (h2 : t2 ≠ TetriminoType.EmptySpace)
    (hb : ∀ y x, (b1 y x = TetriminoType.EmptySpace ↔ b2 y x = TetriminoType.EmptySpace)) :
    ∀ y x, (Board.stamp b1 c t1 y x = TetriminoType.EmptySpace ↔
      Board.stamp b2 c t2 y x = TetriminoType.EmptySpace) := by
  intro y x
  unfold Board.stamp
  by_cases hc : 0 ≤ c.y ∧ c.y < ((BOARD_HEIGHT : Nat) : Int) ∧
      0 ≤ c.x ∧ c.x < ((BOARD_WIDTH : Nat) : Int)
  · rw [if_pos hc, if_pos hc]
    by_cases hyx : y = c.y.toNat ∧ x = c.x.toNat
    · rw [if_pos hyx, if_pos hyx]
      simp [h1, h2]
    · rw [if_neg hyx, if_neg hyx]
      exact hb y x
  · rw [if_neg hc, if_neg hc]
    exact hb y x

theorem isFullRow_occ (b1 b2 : Board)
    (hb : ∀ y x, (b1 y x = TetriminoType.EmptySpace ↔ b2 y x = TetriminoType.EmptySpace))
    (y : Nat) : Board.isFullRow b1 y = Board.isFullRow b2 y := by
  have hfun : (fun x => decide (b1 y x ≠ TetriminoType.EmptySpace))
      = (fun x => decide (b2 y x ≠ TetriminoType.EmptySpace)) := by
    funext x
    have hyx := hb y x
    by_cases hx : b1 y x = TetriminoType.EmptySpace
    · simp [hx, hyx.1 hx]
    · have hx2 : ¬ b2 y x = TetriminoType.EmptySpace := fun h => hx (hyx.2 h)
      simp [hx, hx2]
  unfold Board.isFullRow
  rw [hfun]

theorem fullRows_occ (b1 b2 : Board)
    (hb : ∀ y x, (b1 y x = TetriminoType.EmptySpace ↔ b2 y x = TetriminoType.EmptySpace))
    (start stop : Nat) : b1.fullRows start stop = b2.fullRows start stop := by
  unfold Board.fullRows
  congr 1
  funext y
  exact isFullRow_occ b1 b2 hb y

theorem add_piece_occ (b : Board) (p : Piece) : ∀ y x,
    ((b.add_piece p).1 y x = TetriminoType.EmptySpace ↔
      (b.add_piece ⟨.IType .HorizontalDown, p.position⟩).1 y x = TetriminoType.EmptySpace) := by
  have h0 : ∀ y x, (b y x = TetriminoType.EmptySpace ↔ b y x = TetriminoType.EmptySpace) :=
    fun _ _ => Iff.rfl
  have h1 := stamp_occ b b (p.position 0) (tetTypeOf p.piece_type)
    (tetTypeOf (.IType .HorizontalDown)) (tetTypeOf_ne_empty _) (tetTypeOf_ne_empty _) h0
  have h2 := stamp_occ _ _ (p.position 1) (tetTypeOf p.piece_type)
    (tetTypeOf (.IType .HorizontalDown)) (tetTypeOf_ne_empty _) (tetTypeOf_ne_empty _) h1
  have h3 := stamp_occ _ _ (p.position 2) (tetTypeOf p.piece_type)
    (tetTypeOf (.IType .HorizontalDown)) (tetTypeOf_ne_empty _) (tetTypeOf_ne_empty _) h2
  have h4 := stamp_occ _ _ (p.position 3) (tetTypeOf p.piece_type)
    (tetTypeOf (.IType .HorizontalDown)) (tetTypeOf_ne_empty _) (tetTypeOf_ne_empty _) h3
  exact h4

theorem clear_count_eq (b : Board) (p : Piece) :
    ((b.add_piece p).1.fullRows (b.add_piece p).2.1 (b.add_piece p).2.2).length
      = linesClearedBySettle b p.position := by
  unfold linesClearedBySettle
  have hr : (b.add_piece p).2 = (b.add_piece ⟨.IType .HorizontalDown, p.position⟩).2 := rfl
  rw [fullRows_occ _ _ (add_piece_occ b p), hr]

theorem clear_lines_count (b : Board) (start stop : Nat) (b2 : Board) (n : Nat)
    (h : b.clear_lines start stop = some (b2, n)) :
    n = (b.fullRows start stop).length := by
  simp only [Board.clear_lines] at h
  split at h
  · exact absurd h (by simp)
  · split at h
    · simp only [Option.some.injEq, Prod.mk.injEq] at h
      exact h.2.symm
    · exact absurd h (by simp)


/-- The settle block of `run_loop`, characterized field by field: the render
diff records the settled cells, the score increases per the table applied to
the cleared-line count of the stamped board, the level/threshold update
fires exactly when the updated score exceeds the old threshold below level
15, and the bag cursor advances (reshuffling at 7). -/
theorem settle_spec (g : Game) (q : Piece) (r : Nat → Nat) (g5 : Game) (r5 : Nat → Nat)
    (h : g.settle q r = some (g5, r5)) :
    g5.render_info.newly_settled_pieces = some q.position ∧
    g5.state = g.state ∧
    g5.score = g.score + scoreFor (linesClearedBySettle g.board q.position) ∧
    ((g.next_level_score < g5.score ∧ g.level < 15) →
      g5.level = g.level + 1 ∧
      g5.next_level_score = g.next_level_score + 5 * (g5.level + 1)) ∧
    (¬ (g.next_level_score < g5.score ∧ g.level < 15) →
      g5.level = g.level ∧ g5.next_level_score = g.next_level_score) ∧
    (g.piece_index + 1 = 7 →
      g5.piece_index = 0 ∧ knuthShuffle g.pieces r = some (g5.pieces, r5) ∧
      g5.current_piece = g5.pieces 0) ∧
    (g.piece_index + 1 ≠ 7 →
      g5.piece_index = g.piece_index + 1 ∧ g5.pieces = g.pieces ∧ r5 = r ∧
      ∀ hlt : g.piece_index + 1 < 7,
        g5.current_piece = g5.pieces ⟨g.piece_index + 1, hlt⟩) := by
  simp only [Game.settle] at h
  split at h
  · exact absurd h (by simp)
  · rename_i bc hclear
    have hn : bc.2 = linesClearedBySettle g.board q.position := by
      rw [clear_lines_count _ _ _ _ _ hclear, clear_count_eq]
    split at h
    · rename_i hidx
      split at h
      · exact absurd h (by simp)
      · rename_i pr hshuf
        simp only [Option.some.injEq, Prod.mk.injEq] at h
        obtain ⟨hg5, hr5⟩ := h
        subst hg5
        subst hr5
        refine ⟨by simp, by simp, by simp [hn], ?_, ?_, ?_, ?_⟩
        · intro hcond
          simp only at hcond
          constructor
          · simp [hcond.1, hcond.2]
          · simp [hcond.1, hcond.2]
        · intro hcond
          simp only at hcond
          have hfalse : (decide (g.next_level_score < g.score + scoreFor bc.2)
              && decide (g.level < 15)) = false := by
            rcases Decidable.em (g.next_level_score < g.score + scoreFor bc.2) with hx | hx
            · rcases Decidable.em (g.level < 15) with hy | hy
              · exact absurd ⟨hx, hy⟩ hcond
              · simp [hy]
            · simp [hx]
          constructor
          · simp [hfalse]
          · simp [hfalse]
        · intro _
          refine ⟨by simp, ?_, by simp⟩
          rw [hshuf]
        · intro hne
          exact absurd hidx hne
    · rename_i hidx
      simp only [Option.some.injEq, Prod.mk.injEq] at h
      obtain ⟨hg5, hr5⟩ := h
      subst hg5
      subst hr5
      refine ⟨by simp, by simp, by simp [hn], ?_, ?_, ?_, ?_⟩
      · intro hcond
        simp only at hcond
        constructor
        · simp [hcond.1, hcond.2]
        · simp [hcond.1, hcond.2]
      · intro hcond
        simp only at hcond
        have hfalse : (decide (g.next_level_score < g.score + scoreFor bc.2)
            && decide (g.level < 15)) = false := by
          rcases Decidable.em (g.next_level_score < g.score + scoreFor bc.2) with hx | hx
          · rcases Decidable.em (g.level < 15) with hy | hy
            · exact absurd ⟨hx, hy⟩ hcond
            · simp [hy]
          · simp [hx]
        constructor
        · simp [hfalse]
        · simp [hfalse]
      · intro heq
        exact absurd heq hidx
      · intro _
        refine ⟨by simp, by simp, rfl, ?_⟩
        intro hlt
        simp [hlt]

/-- The full case analysis of the vertical-movement block: either nothing
settles this tick (all persistent fields other than the current piece and
the displacement accumulator are untouched), or a piece `q` settles as in
`settle_spec`. -/
theorem verticalPhase_spec (g : Game) (input : Input) (r : Nat → Nat)
    (g5 : Game) (r5 : Nat → Nat)
    (h : g.verticalPhase input r = some (g5, r5)) :
    (g5.score = g.score ∧ g5.level = g.level ∧
     g5.next_level_score = g.next_level_score ∧
     g5.pieces = g.pieces ∧ g5.piece_index = g.piece_index ∧
     g5.render_info = g.render_info ∧
     g5.board = g.board ∧ g5.state = g.state ∧ r5 = r)
    ∨ (∃ q : Piece,
        g5.render_info.newly_settled_pieces = some q.position ∧
        g5.state = g.state ∧
        g5.score = g.score + scoreFor (linesClearedBySettle g.board q.position) ∧
        ((g.next_level_score < g5.score ∧ g.level < 15) →
          g5.level = g.level + 1 ∧
          g5.next_level_score = g.next_level_score + 5 * (g5.level + 1)) ∧
        (¬ (g.next_level_score < g5.score ∧ g.level < 15) →
          g5.level = g.level ∧ g5.next_level_score = g.next_level_score) ∧
        (g.piece_index + 1 = 7 →
          g5.piece_index = 0 ∧
          knuthShuffle g.pieces r = some (g5.pieces, r5) ∧
          g5.current_piece = g5.pieces 0) ∧
        (g.piece_index + 1 ≠ 7 →
          g5.piece_index = g.piece_index + 1 ∧ g5.pieces = g.pieces ∧ r5 = r ∧
          ∀ hlt : g.piece_index + 1 < 7,
            g5.current_piece = g5.pieces ⟨g.piece_index + 1, hlt⟩)) := by
  simp only [Game.verticalPhase] at h
  split at h
  · set D : Nat := if input.down = true
        then max 1 (((g.displacement + GRAVITY.getD (g.level - 1) 0) / MICRO).toNat + 1)
        else ((g.displacement + GRAVITY.getD (g.level - 1) 0) / MICRO).toNat with hD
    set E : Int := if input.down = true then (0 : Int)
        else (g.displacement + GRAVITY.getD (g.level - 1) 0) - (D : Int) * MICRO with hE
    split at h
    · right
      have hs := settle_spec _ _ _ _ _ h
      exact ⟨_, hs.1, hs.2.1, hs.2.2.1, hs.2.2.2.1, hs.2.2.2.2.1,
        hs.2.2.2.2.2.1, hs.2.2.2.2.2.2⟩
    · left
      simp only [Option.some.injEq, Prod.mk.injEq] at h
      obtain ⟨hg5, hr5⟩ := h
      subst hg5
      subst hr5
      simp
  · left
    simp only [Option.some.injEq, Prod.mk.injEq] at h
    obtain ⟨hg5, hr5⟩ := h
    subst hg5
    subst hr5
    simp

/-- C4: on a tick in which a piece settles the score increases by exactly
`scoreFor` of the number of lines that settle cleared (1→+1, 2→+3, 3→+5,
4→+8, else +0); on a tick with no settle the score is unchanged; the score
never decreases. -/
theorem score_update_per_settle (g : Game) (input : Input) (r : Nat → Nat)
    (g' : Game) (st : GameState) (r' : Nat → Nat)
    (hrun : g.run_loop input r = some (g', st, r')) :
    (∀ cells, g.state = GameState.Playing →
        g'.render_info.newly_settled_pieces = some cells →
        g'.score = g.score + scoreFor (linesClearedBySettle g.board cells))
    ∧ (g'.render_info.newly_settled_pieces = none → g'.score = g.score)
    ∧ g.score ≤ g'.score := by
  cases hst : g.state with
  | GameOver =>
    have hg : g' = g := by
      simp only [Game.run_loop, hst] at hrun
      simp only [Option.some.injEq, Prod.mk.injEq] at hrun
      exact hrun.1.symm
    subst hg
    refine ⟨fun cells hpl _ => absurd hpl (by simp), fun _ => rfl, le_rfl⟩
  | Playing =>
    obtain ⟨g5, r5, hv, hg', hst', hr'⟩ := run_loop_playing g input r g' st r' hst hrun
    obtain ⟨fH1, fH2, fH3, fH4, fH5, fH6, fH7, fH8, fH9⟩ :=
      horizontalPhase_fields { g with render_info := default } input
    obtain ⟨fR1, fR2, fR3, fR4, fR5, fR6, fR7, fR8, fR9⟩ :=
      rotationPhase_fields (Game.horizontalPhase { g with render_info := default } input) input
    obtain ⟨fF1, fF2, fF3, fF4, fF5, fF6, fF7, fF8⟩ := finishPhase_fields g5 g.current_piece
    rcases verticalPhase_spec _ input r g5 r5 hv with hL | ⟨q, hq1, hq2, hq3, hq4, hq5, hq6, hq7⟩
    · have hnone : g'.render_info.newly_settled_pieces = none := by
        rw [hg', fF8, hL.2.2.2.2.2.1, fR7, fH7]
        rfl
      have hscore : g'.score = g.score := by
        rw [hg', fF1, hL.1, fR1, fH1]
      refine ⟨?_, fun _ => hscore, le_of_eq hscore.symm⟩
      intro cells _ hsome
      rw [hnone] at hsome
      exact absurd hsome (by simp)
    · have hsome : g'.render_info.newly_settled_pieces = some q.position := by
        rw [hg', fF8, hq1]
      have hscore : g'.score = g.score + scoreFor (linesClearedBySettle g.board q.position) := by
        rw [hg', fF1, hq3, fR1, fH1, fR4, fH4]
      refine ⟨?_, ?_, ?_⟩
      · intro cells _ hcells
        rw [hsome] at hcells
        have hcq : q.position = cells := by
          simpa using hcells
        rw [hscore, hcq]
      · intro hnone
        rw [hsome] at hnone
        exact absurd hnone (by simp)
      · rw [hscore]
        exact Nat.le_add_right _ _

/-- C4 witness: an idle tick (no settle) on a fresh game; the theorem
applies, and in particular the score is unchanged. -/
theorem score_update_per_settle_witness :
    idleGame.run_loop idleInput constStream = some (idleGame1, idleState1, idleStream1) ∧
    ((∀ cells, idleGame.state = GameState.Playing →
        idleGame1.render_info.newly_settled_pieces = some cells →
        idleGame1.score = idleGame.score +
          scoreFor (linesClearedBySettle idleGame.board cells))
     ∧ (idleGame1.render_info.newly_settled_pieces = none →
         idleGame1.score = idleGame.score)
     ∧ idleGame.score ≤ idleGame1.score) :=
  ⟨rfl, score_update_per_settle idleGame idleInput constStream
    idleGame1 idleState1 idleStream1 rfl⟩

/-- C3 counterexample: a concrete settling tick that crosses the level
threshold.  The level rises from 1 to 2, but the threshold is raised by
`5 * (new level + 1) = 15` (to 20), not by `5 * new level = 10` as
claimed. -/
theorem leveling_raise_counterexample :
    levelGame.run_loop downInput constStream = some (levelGame1, levelState1, levelStream1) ∧
    levelGame.state = GameState.Playing ∧
    levelGame1.render_info.newly_settled_pieces.isSome = true ∧
    levelGame.next_level_score < levelGame1.score ∧
    levelGame.level < 15 ∧
    levelGame1.level = levelGame.level + 1 ∧
    levelGame1.next_level_score = 20 ∧
    levelGame1.next_level_score ≠ levelGame.next_level_score + 5 * levelGame1.level := by
  refine ⟨rfl, rfl, ?_, ?_, ?_, ?_, ?_, ?_⟩ <;> decide

/-- C3 (amended: the threshold is raised by `5 * (new level + 1)`, not
`5 * (new level)`): on a settling tick, when the updated score exceeds the
old threshold and the level is below 15, the level rises by exactly 1 and
the threshold by exactly `5 * (new level + 1)`; otherwise, and on ticks
with no settle, both are unchanged. -/
theorem leveling_amended (g : Game) (input : Input) (r : Nat → Nat)
    (g' : Game) (st : GameState) (r' : Nat → Nat)
    (hrun : g.run_loop input r = some (g', st, r'))
    (hplay : g.state = GameState.Playing) :
    (g'.render_info.newly_settled_pieces.isSome = true →
      ((g.next_level_score < g'.score ∧ g.level < 15) →
        g'.level = g.level + 1 ∧
        g'.next_level_score = g.next_level_score + 5 * (g'.level + 1)) ∧
      ((g'.score ≤ g.next_level_score ∨ 15 ≤ g.level) →
        g'.level = g.level ∧ g'.next_level_score = g.next_level_score))
    ∧ (g'.render_info.newly_settled_pieces = none →
        g'.level = g.level ∧ g'.next_level_score = g.next_level_score) := by
  obtain ⟨g5, r5, hv, hg', hst', hr'⟩ := run_loop_playing g input r g' st r' hplay hrun
  obtain ⟨fH1, fH2, fH3, fH4, fH5, fH6, fH7, fH8, fH9⟩ :=
    horizontalPhase_fields { g with render_info := default } input
  obtain ⟨fR1, fR2, fR3, fR4, fR5, fR6, fR7, fR8, fR9⟩ :=
    rotationPhase_fields (Game.horizontalPhase { g with render_info := default } input) input
  obtain ⟨fF1, fF2, fF3, fF4, fF5, fF6, fF7, fF8⟩ := finishPhase_fields g5 g.current_piece
  rcases verticalPhase_spec _ input r g5 r5 hv with hL | ⟨q, hq1, hq2, hq3, hq4, hq5, hq6, hq7⟩
  · have hnone : g'.render_info.newly_settled_pieces = none := by
      rw [hg', fF8, hL.2.2.2.2.2.1, fR7, fH7]
      rfl
    have hlev : g'.level = g.level := by
      rw [hg', fF2, hL.2.1, fR2, fH2]
    have hnxt : g'.next_level_score = g.next_level_score := by
      rw [hg', fF3, hL.2.2.1, fR3, fH3]
    refine ⟨fun habs => ?_, fun _ => ⟨hlev, hnxt⟩⟩
    rw [hnone] at habs
    exact absurd habs (by simp)
  · have hsc : g'.score = g5.score := by rw [hg', fF1]
    have hlev : g'.level = g5.level := by rw [hg', fF2]
    have hnxt : g'.next_level_score = g5.next_level_score := by rw [hg', fF3]
    have hnx2 : (Game.rotationPhase (Game.horizontalPhase
        { g with render_info := default } input) input).next_level_score
        = g.next_level_score := by rw [fR3, fH3]
    have hlv2 : (Game.rotationPhase (Game.horizontalPhase
        { g with render_info := default } input) input).level = g.level := by
      rw [fR2, fH2]
    refine ⟨fun _ => ⟨?_, ?_⟩, fun habs => ?_⟩
    · intro hcond
      have hcond2 : (Game.rotationPhase (Game.horizontalPhase
          { g with render_info := default } input) input).next_level_score < g5.score ∧
          (Game.rotationPhase (Game.horizontalPhase
          { g with render_info := default } input) input).level < 15 := by
        rw [hnx2, hlv2, ← hsc]
        exact hcond
      obtain ⟨ha, hb⟩ := hq4 hcond2
      constructor
      · rw [hlev, ha, hlv2]
      · rw [hnxt, hb, hnx2, hlev, ha, hlv2]
    · intro hcond
      have hcond2 : ¬ ((Game.rotationPhase (Game.horizontalPhase
          { g with render_info := default } input) input).next_level_score < g5.score ∧
          (Game.rotationPhase (Game.horizontalPhase
          { g with render_info := default } input) input).level < 15) := by
        rw [hnx2, hlv2, ← hsc]
        rintro ⟨h1, h2⟩
        rcases hcond with h | h
        · omega
        · omega
      obtain ⟨ha, hb⟩ := hq5 hcond2
      exact ⟨by rw [hlev, ha, hlv2], by rw [hnxt, hb, hnx2]⟩
    · have hsome : g'.render_info.newly_settled_pieces = some q.position := by
        rw [hg', fF8, hq1]
      rw [hsome] at habs
      exact absurd habs (by simp)

/-- C3 witness: the amended theorem applied to the concrete threshold
crossing of `levelGame`. -/
theorem leveling_amended_witness :
    (levelGame.run_loop downInput constStream
        = some (levelGame1, levelState1, levelStream1) ∧
      levelGame.state = GameState.Playing) ∧
    ((levelGame1.render_info.newly_settled_pieces.isSome = true →
      ((levelGame.next_level_score < levelGame1.score ∧ levelGame.level < 15) →
        levelGame1.level = levelGame.level + 1 ∧
        levelGame1.next_level_score
          = levelGame.next_level_score + 5 * (levelGame1.level + 1)) ∧
      ((levelGame1.score ≤ levelGame.next_level_score ∨ 15 ≤ levelGame.level) →
        levelGame1.level = levelGame.level ∧
        levelGame1.next_level_score = levelGame.next_level_score))
    ∧ (levelGame1.render_info.newly_settled_pieces = none →
        levelGame1.level = levelGame.level ∧
        levelGame1.next_level_score = levelGame.next_level_score)) :=
  ⟨⟨rfl, rfl⟩, leveling_amended levelGame downInput constStream
    levelGame1 levelState1 levelStream1 rfl rfl⟩

-- The seven-bag invariant ---------------------------------------------

theorem swapAt_eq (tets : Fin 7 → Piece) (a b k : Fin 7) :
    swapAt tets a b k = tets (Equiv.swap a b k) := by
  unfold swapAt
  rcases eq_or_ne k a with h | h
  · subst h
    simp [Equiv.swap_apply_left]
  · rcases eq_or_ne k b with h2 | h2
    · subst h2
      rw [if_neg h, if_pos rfl, Equiv.swap_apply_right]
    · rw [if_neg h, if_neg h2, Equiv.swap_apply_of_ne_of_ne h h2]

theorem shuffleAux_perm : ∀ (l : List (Fin 7)) (tets : Fin 7 → Piece) (r : Nat → Nat)
    (out : (Fin 7 → Piece) × (Nat → Nat)), shuffleAux tets r l = some out →
    ∃ σ : Equiv.Perm (Fin 7), ∀ i, out.1 i = tets (σ i) := by
  intro l
  induction l with
  | nil =>
    intro tets r out h
    simp only [shuffleAux, Option.some.injEq] at h
    subst h
    exact ⟨Equiv.refl _, fun i => rfl⟩
  | cons i rest ih =>
    intro tets r out h
    simp only [shuffleAux] at h
    split at h
    · split at h
      · rename_i hlt
        obtain ⟨σ, hσ⟩ := ih _ _ out h
        refine ⟨σ.trans (Equiv.swap i ⟨r 0, hlt⟩), fun j => ?_⟩
        rw [hσ j, swapAt_eq]
        rfl
      · exact absurd h (by simp)
    · exact ih _ _ out h

theorem shuffleAux_stream : ∀ (l : List (Fin 7)) (tets : Fin 7 → Piece) (r : Nat → Nat)
    (out : (Fin 7 → Piece) × (Nat → Nat)), shuffleAux tets r l = some out →
    StreamOk r → StreamOk out.2 := by
  intro l
  induction l with
  | nil =>
    intro tets r out h hr
    simp only [shuffleAux, Option.some.injEq] at h
    subst h
    exact hr
  | cons i rest ih =>
    intro tets r out h hr
    simp only [shuffleAux] at h
    split at h
    · split at h
      · exact ih _ _ out h (fun n => hr (n + 1))
      · exact absurd h (by simp)
    · exact ih _ _ out h (fun n => hr (n + 1))

theorem run_loop_bag_step (g : Game) (input : Input) (r : Nat → Nat)
    (g2 : Game) (st : GameState) (r2 : Nat → Nat)
    (hgood : GoodBag g) (hr : StreamOk r)
    (h : g.run_loop input r = some (g2, st, r2)) :
    GoodBag g2 ∧ StreamOk r2 := by
  cases hst : g.state with
  | GameOver =>
    have heq : g2 = g ∧ r2 = r := by
      simp only [Game.run_loop, hst] at h
      simp only [Option.some.injEq, Prod.mk.injEq] at h
      exact ⟨h.1.symm, h.2.2.symm⟩
    rw [heq.1, heq.2]
    exact ⟨hgood, hr⟩
  | Playing =>
    obtain ⟨g5, r5, hv, hg2, hst2, hr2⟩ := run_loop_playing g input r g2 st r2 hst h
    obtain ⟨fH1, fH2, fH3, fH4, fH5, fH6, fH7, fH8, fH9⟩ :=
      horizontalPhase_fields { g with render_info := default } input
    obtain ⟨fR1, fR2, fR3, fR4, fR5, fR6, fR7, fR8, fR9⟩ :=
      rotationPhase_fields (Game.horizontalPhase { g with render_info := default } input) input
    obtain ⟨fF1, fF2, fF3, fF4, fF5, fF6, fF7, fF8⟩ := finishPhase_fields g5 g.current_piece
    have hgp : (Game.rotationPhase (Game.horizontalPhase
        { g with render_info := default } input) input).pieces = g.pieces := by
      rw [fR5, fH5]
    have hgi : (Game.rotationPhase (Game.horizontalPhase
        { g with render_info := default } input) input).piece_index = g.piece_index := by
      rw [fR6, fH6]
    have hpieces2 : g2.pieces = g5.pieces := by rw [hg2, fF4]
    have hindex2 : g2.piece_index = g5.piece_index := by rw [hg2, fF5]
    rcases verticalPhase_spec _ input r g5 r5 hv with hL | ⟨q, hq1, hq2, hq3, hq4, hq5, hq6, hq7⟩
    · obtain ⟨σ, hσ⟩ := hgood.1
      refine ⟨⟨⟨σ, fun i => ?_⟩, ?_⟩, ?_⟩
      · rw [hpieces2, hL.2.2.2.1, hgp, hσ i]
      · rw [hindex2, hL.2.2.2.2.1, hgi]
        exact hgood.2
      · rw [hr2, hL.2.2.2.2.2.2.2.2]
        exact hr
    · by_cases hidx : g.piece_index + 1 = 7
      · obtain ⟨ha, hb, hc⟩ := hq6 (by rw [hgi]; exact hidx)
        obtain ⟨σ, hσ⟩ := hgood.1
        obtain ⟨σ2, hσ2⟩ := shuffleAux_perm _ _ _ _ (by
          simpa only [knuthShuffle] using hb)
        refine ⟨⟨⟨σ2.trans σ, fun i => ?_⟩, ?_⟩, ?_⟩
        · have := hσ2 i
          simp only at this
          rw [hpieces2, this, hgp, hσ (σ2 i)]
          rfl
        · rw [hindex2, ha]
          omega
        · rw [hr2]
          exact shuffleAux_stream _ _ _ _ (by simpa only [knuthShuffle] using hb) hr
      · obtain ⟨ha, hb, hc, hd⟩ := hq7 (by rw [hgi]; exact hidx)
        obtain ⟨σ, hσ⟩ := hgood.1
        refine ⟨⟨⟨σ, fun i => ?_⟩, ?_⟩, ?_⟩
        · rw [hpieces2, hb, hgp, hσ i]
        · rw [hindex2, ha, hgi]
          have := hgood.2
          omega
        · rw [hr2, hc]
          exact hr

theorem run_many_bag (ticks : List Input) : ∀ (g : Game) (r : Nat → Nat)
    (gOut : Game) (rOut : Nat → Nat),
    GoodBag g → StreamOk r → g.run_many r ticks = some (gOut, rOut) →
    GoodBag gOut ∧ StreamOk rOut := by
  induction ticks with
  | nil =>
    intro g r gOut rOut hg hr h
    simp only [Game.run_many, Option.some.injEq, Prod.mk.injEq] at h
    rw [← h.1, ← h.2]
    exact ⟨hg, hr⟩
  | cons input rest ih =>
    intro g r gOut rOut hg hr h
    simp only [Game.run_many] at h
    rcases hrl : g.run_loop input r with _ | ⟨g2, st2, r2⟩
    · rw [hrl] at h
      simp at h
    · rw [hrl] at h
      obtain ⟨hg2good, hr2ok⟩ := run_loop_bag_step g input r g2 st2 r2 hg hr hrl
      exact ih g2 r2 gOut rOut hg2good hr2ok h

/-- C6: with every rng draw in `[0, 7)`, after `Game::new` and any sequence
of ticks the bag is a permutation of the seven spawn pieces (one of each
kind, each at its spawn pose) and the cursor is in `0..=6`; moreover, on
any settling tick the cursor advances by one with the bag untouched, or,
when it reaches 7, the bag is reshuffled by the Knuth pass and the cursor
resets to 0, the new current piece being the bag entry at the cursor. -/
theorem bag_invariant (r : Nat → Nat) (ticks : List Input) (g : Game) (rOut : Nat → Nat)
    (hr : StreamOk r) (hrun : Game.newAndRun r ticks = some (g, rOut)) :
    ((∃ σ : Equiv.Perm (Fin 7), ∀ i, g.pieces i = PIECE_TYPES (σ i)) ∧ g.piece_index < 7)
    ∧ StreamOk rOut
    ∧ ∀ (input : Input) (g2 : Game) (st : GameState) (r2 : Nat → Nat),
        g.run_loop input rOut = some (g2, st, r2) →
        g.state = GameState.Playing →
        g2.render_info.newly_settled_pieces.isSome = true →
        ((g.piece_index + 1 ≠ 7 →
            g2.piece_index = g.piece_index + 1 ∧ g2.pieces = g.pieces) ∧
         (g.piece_index + 1 = 7 →
            g2.piece_index = 0 ∧ knuthShuffle g.pieces rOut = some (g2.pieces, r2)) ∧
         ∃ hlt : g2.piece_index < 7,
           g2.current_piece = g2.pieces ⟨g2.piece_index, hlt⟩) := by
  simp only [Game.newAndRun] at hrun
  rcases hnewr : Game.new r with _ | ⟨g0, r0⟩
  · rw [hnewr] at hrun
    simp at hrun
  · rw [hnewr] at hrun
    have hgood0 : GoodBag g0 ∧ StreamOk r0 := by
      simp only [Game.new] at hnewr
      rw [Option.map_eq_some'] at hnewr
      obtain ⟨⟨ps, r0x⟩, hsh, heq⟩ := hnewr
      simp only [Prod.mk.injEq] at heq
      obtain ⟨σ, hσ⟩ := shuffleAux_perm _ _ _ _ (by simpa only [knuthShuffle] using hsh)
      constructor
      · constructor
        · refine ⟨σ, fun i => ?_⟩
          rw [← heq.1]
          exact hσ i
        · rw [← heq.1]
          exact Nat.succ_pos _
      · rw [← heq.2]
        exact shuffleAux_stream _ _ _ _ (by simpa only [knuthShuffle] using hsh) hr
    obtain ⟨hgood, hrOut⟩ := run_many_bag ticks g0 r0 g rOut hgood0.1 hgood0.2 hrun
    refine ⟨hgood, hrOut, ?_⟩
    intro input g2 st r2 hstep hplay hsettled
    obtain ⟨g5, r5, hv, hg2, hst2, hr2⟩ := run_loop_playing g input rOut g2 st r2 hplay hstep
    obtain ⟨fH1, fH2, fH3, fH4, fH5, fH6, fH7, fH8, fH9⟩ :=
      horizontalPhase_fields { g with render_info := default } input
    obtain ⟨fR1, fR2, fR3, fR4, fR5, fR6, fR7, fR8, fR9⟩ :=
      rotationPhase_fields (Game.horizontalPhase { g with render_info := default } input) input
    obtain ⟨fF1, fF2, fF3, fF4, fF5, fF6, fF7, fF8⟩ := finishPhase_fields g5 g.current_piece
    have hgp : (Game.rotationPhase (Game.horizontalPhase
        { g with render_info := default } input) input).pieces = g.pieces := by
      rw [fR5, fH5]
    have hgi : (Game.rotationPhase (Game.horizontalPhase
        { g with render_info := default } input) input).piece_index = g.piece_index := by
      rw [fR6, fH6]
    have hpieces2 : g2.pieces = g5.pieces := by rw [hg2, fF4]
    have hindex2 : g2.piece_index = g5.piece_index := by rw [hg2, fF5]
    have hcur2 : g2.current_piece = g5.current_piece := by rw [hg2, fF7]
    rcases verticalPhase_spec _ input rOut g5 r5 hv with hL | ⟨q, hq1, hq2, hq3, hq4, hq5, hq6, hq7⟩
    · have hnone : g2.render_info.newly_settled_pieces = none := by
        rw [hg2, fF8, hL.2.2.2.2.2.1, fR7, fH7]
        rfl
      rw [hnone] at hsettled
      exact absurd hsettled (by simp)
    · refine ⟨?_, ?_, ?_⟩
      · intro hne
        obtain ⟨ha, hb, hc, hd⟩ := hq7 (by rw [hgi]; exact hne)
        exact ⟨by rw [hindex2, ha, hgi], by rw [hpieces2, hb, hgp]⟩
      · intro heq7
        obtain ⟨ha, hb, hc⟩ := hq6 (by rw [hgi]; exact heq7)
        refine ⟨by rw [hindex2, ha], ?_⟩
        rw [hr2, hpieces2, ← hgp]
        exact hb
      · by_cases hidx7 : g.piece_index + 1 = 7
        · obtain ⟨ha, hb, hc⟩ := hq6 (by rw [hgi]; exact hidx7)
          have h0 : g2.piece_index = 0 := by rw [hindex2, ha]
          rw [h0]
          refine ⟨by omega, ?_⟩
          rw [hcur2, hc, hpieces2]
          exact congrArg g5.pieces (Fin.ext (by simp))
        · obtain ⟨ha, hb, hc, hd⟩ := hq7 (by rw [hgi]; exact hidx7)
          have h0 : g2.piece_index = g.piece_index + 1 := by rw [hindex2, ha, hgi]
          have hlt : g.piece_index + 1 < 7 := by
            have := hgood.2
            omega
          rw [h0]
          refine ⟨hlt, ?_⟩
          have hd2 := hd (by rw [hgi]; exact hlt)
          rw [hcur2, hd2, hpieces2]
          exact congrArg g5.pieces (Fin.ext (by simp [hgi]))

/-- C6 witness: the all-zero stream is in range, and the invariant holds
for the freshly created game after no ticks. -/
theorem bag_invariant_witness :
    (StreamOk constStream ∧ Game.newAndRun constStream [] = some (bagGame0, bagStream0)) ∧
    (((∃ σ : Equiv.Perm (Fin 7), ∀ i, bagGame0.pieces i = PIECE_TYPES (σ i)) ∧
        bagGame0.piece_index < 7)
     ∧ StreamOk bagStream0
     ∧ ∀ (input : Input) (g2 : Game) (st : GameState) (r2 : Nat → Nat),
         bagGame0.run_loop input bagStream0 = some (g2, st, r2) →
         bagGame0.state = GameState.Playing →
         g2.render_info.newly_settled_pieces.isSome = true →
         ((bagGame0.piece_index + 1 ≠ 7 →
             g2.piece_index = bagGame0.piece_index + 1 ∧ g2.pieces = bagGame0.pieces) ∧
          (bagGame0.piece_index + 1 = 7 →
             g2.piece_index = 0 ∧
             knuthShuffle bagGame0.pieces bagStream0 = some (g2.pieces, r2)) ∧
          ∃ hlt : g2.piece_index < 7,
            g2.current_piece = g2.pieces ⟨g2.piece_index, hlt⟩)) :=
  ⟨⟨fun _ => by show (0 : Nat) < 7; decide, rfl⟩,
    bag_invariant constStream [] bagGame0 bagStream0
      (fun _ => by show (0 : Nat) < 7; decide) rfl⟩

end Fourtris
